import Mathlib

/-!
Verification development for the image-optimization pipeline in
`optimize_images.py`.  Python functions are shallowly embedded as Lean
definitions: pure string and arithmetic code is translated directly,
the IEEE binary64 arithmetic used by the resize computation is modelled
exactly by dyadic rationals, and the file/console effects of the
orchestrator are modelled by explicit state passing over a `World`
record.
-/

/-! ## Filename sanitization (`sanitize_filename`, lines 38-45) -/

/-- Step 1 of `sanitize_filename`: `stem.replace("-", "_").replace(" ", "_")`,
applied characterwise. -/
def underscoreDashSpace (c : Char) : Char :=
  if c = '-' || c = ' ' then '_' else c

/-- Fragment of the Unicode NFKD decomposition table used by
`unicodedata.normalize("NFKD", stem)`.  Characters without a decomposition
(in particular the whole ASCII range) decompose to themselves; the table
lists representative accented Latin letters and compatibility forms.
Canonical reordering is omitted: it only permutes combining marks, which
the next pipeline stage deletes wholesale, so it cannot affect the result
of `sanitize_filename`. -/
def nfkdTable : List (Char × List Char) :=
  [('é', ['e', '́']), ('è', ['e', '̀']), ('ê', ['e', '̂']),
   ('ë', ['e', '̈']), ('à', ['a', '̀']), ('â', ['a', '̂']),
   ('ù', ['u', '̀']), ('û', ['u', '̂']), ('ü', ['u', '̈']),
   ('ö', ['o', '̈']), ('ô', ['o', '̂']), ('ç', ['c', '̧']),
   ('ñ', ['n', '̃']), ('É', ['E', '́']), ('À', ['A', '̀']),
   ('Ç', ['C', '̧']), ('ﬁ', ['f', 'i']), ('²', ['2']), ('µ', ['μ'])]

/-- NFKD decomposition of a single character, per `nfkdTable`. -/
def nfkd (c : Char) : List Char :=
  match nfkdTable.lookup c with
  | some l => l
  | none => [c]

/-- Model of `unicodedata.combining(c) != 0`: the combining diacritical
marks block U+0300 to U+036F (the only combining characters produced by
`nfkdTable`). -/
def combining (c : Char) : Bool :=
  768 ≤ c.toNat && c.toNat ≤ 879

/-- Model of Python `str.lower` on one character.  Only the ASCII range
matters for `sanitize_filename`: a non-ASCII character never lowercases
into `[a-z0-9_]`, so it is removed by the following filter either way. -/
def pyLower (c : Char) : Char :=
  if 65 ≤ c.toNat && c.toNat ≤ 90 then Char.ofNat (c.toNat + 32) else c

/-- The character class `[a-z0-9_]` of the regex in line 43. -/
def isAllowed (c : Char) : Bool :=
  (97 ≤ c.toNat && c.toNat ≤ 122) || (48 ≤ c.toNat && c.toNat ≤ 57) || c = '_'

/-- Model of `re.sub(r"_+", "_", stem)`: collapse every run of underscores
to a single underscore. -/
def collapseUnders : List Char → List Char
  | [] => []
  | [c] => [c]
  | a :: b :: rest =>
    if a = '_' && b = '_' then collapseUnders (b :: rest)
    else a :: collapseUnders (b :: rest)

/-- Drop trailing underscores (the right half of `str.strip("_")`). -/
def dropTrailUnd : List Char → List Char
  | [] => []
  | c :: rest =>
    match dropTrailUnd rest with
    | [] => if c = '_' then [] else [c]
    | r => c :: r

/-- Model of `str.strip("_")`: remove leading and trailing underscores. -/
def stripUnders (cs : List Char) : List Char :=
  dropTrailUnd (cs.dropWhile (fun c => c = '_'))

/-- Embedding of `sanitize_filename` (lines 38-45): replace hyphen and
space by underscore, NFKD-decompose, delete combining marks, lowercase,
delete everything outside `[a-z0-9_]`, collapse runs of underscores,
strip outer underscores, and fall back to the literal string `image`
when the result is empty (`return stem or "image"`). -/
def sanitize_filename (s : String) : String :=
  let cs := s.toList
  let cs := cs.map underscoreDashSpace
  let cs := cs.flatMap nfkd
  let cs := cs.filter (fun c => !(combining c))
  let cs := cs.map pyLower
  let cs := cs.filter isAllowed
  let cs := stripUnders (collapseUnders cs)
  if cs.isEmpty then "image" else String.mk cs

/-- Right-fold formulation of the underscore-collapsing step, written
directly from the wording of the specification (collapse repeated
underscores to one). -/
def collapseFold (cs : List Char) : List Char :=
  cs.foldr (fun c acc => if c = '_' && (acc.head? == some '_') then acc else c :: acc) []

/-- Trailing-underscore removal written from the wording of the
specification, via double reversal. -/
def dropTrailRev (cs : List Char) : List Char :=
  (cs.reverse.dropWhile (fun c => c = '_')).reverse

/-- Reference slug construction following the numbered steps of the
specification text (section 4.2), to be compared with the embedding of
the source code. -/
def sanitizeSlugSpec (s : String) : String :=
  let cs := s.toList
  let cs := cs.map underscoreDashSpace
  let cs := cs.flatMap nfkd
  let cs := cs.filter (fun c => !(combining c))
  let cs := cs.map pyLower
  let cs := cs.filter isAllowed
  let cs := dropTrailRev ((collapseFold cs).dropWhile (fun c => c = '_'))
  if cs.isEmpty then "image" else String.mk cs

lemma collapseFold_head? (b : Char) (rest : List Char) :
    (collapseFold (b :: rest)).head? = some b := by
  unfold collapseFold
  simp only [List.foldr_cons]
  split
  · rename_i h
    have h1 := (Bool.and_eq_true _ _).mp h
    have hb : b = '_' := by simpa using h1.1
    have hh := (beq_iff_eq).mp h1.2
    rw [hh, hb]
  · rfl

lemma collapseUnders_eq_collapseFold (cs : List Char) :
    collapseUnders cs = collapseFold cs := by
  induction cs with
  | nil => rfl
  | cons a tl ih =>
    cases tl with
    | nil => simp [collapseUnders, collapseFold]
    | cons b rest =>
      rw [collapseUnders]
      have hfold : collapseFold (a :: b :: rest)
          = if a = '_' && ((collapseFold (b :: rest)).head? == some '_') then
              collapseFold (b :: rest)
            else a :: collapseFold (b :: rest) := rfl
      rw [hfold, collapseFold_head? b rest, ih]
      by_cases ha : a = '_'
      · by_cases hb : b = '_'
        · simp [ha, hb]
        · simp [ha, hb]
      · simp [ha]

lemma dropTrailUnd_eq_dropTrailRev (cs : List Char) :
    dropTrailUnd cs = dropTrailRev cs := by
  induction cs with
  | nil => rfl
  | cons c rest ih =>
    unfold dropTrailRev
    simp only [List.reverse_cons]
    rw [List.dropWhile_append]
    by_cases hr : (rest.reverse.dropWhile (fun c => c = '_')).isEmpty
    · simp only [hr, if_pos]
      have hrest : dropTrailUnd rest = [] := by
        rw [ih]
        unfold dropTrailRev
        rw [List.isEmpty_iff] at hr
        rw [hr, List.reverse_nil]
      rw [dropTrailUnd, hrest]
      by_cases hc : c = '_'
      · simp [hc]
      · simp [hc]
    · simp only [hr, if_neg]
      have hrest : dropTrailUnd rest = dropTrailRev rest := ih
      rw [dropTrailUnd, hrest]
      unfold dropTrailRev
      rw [List.isEmpty_iff] at hr
      have : (rest.reverse.dropWhile (fun c => c = '_')).reverse ≠ [] := by
        intro h
        exact hr (by simpa using congrArg List.reverse h)
      cases hrev : (rest.reverse.dropWhile (fun c => c = '_')).reverse with
      | nil => exact absurd hrev this
      | cons x xs => simp [List.reverse_append, ← hrev]

lemma isAllowed_elim {c : Char} (h : isAllowed c = true) :
    (97 ≤ c.toNat ∧ c.toNat ≤ 122) ∨ (48 ≤ c.toNat ∧ c.toNat ≤ 57) ∨ c.toNat = 95 := by
  unfold isAllowed at h
  simp only [Bool.or_eq_true, Bool.and_eq_true, decide_eq_true_eq] at h
  rcases h with (h | h) | h
  · exact Or.inl h
  · exact Or.inr (Or.inl h)
  · right; right; rw [h]; rfl

lemma toNat_le_of_isAllowed {c : Char} (h : isAllowed c = true) : c.toNat ≤ 122 := by
  rcases isAllowed_elim h with h | h | h <;> omega

lemma underscoreDashSpace_id {c : Char} (h : isAllowed c = true) :
    underscoreDashSpace c = c := by
  have hne : ¬(c = '-' || c = ' ') = true := by
    simp only [Bool.or_eq_true, decide_eq_true_eq]
    rintro (rfl | rfl) <;> simp [isAllowed] at h
  unfold underscoreDashSpace
  simp [hne]

lemma lookup_none_of_ascii (t : List (Char × List Char))
    (hk : ∀ p ∈ t, 127 < p.1.toNat) {c : Char} (hc : c.toNat ≤ 122) :
    t.lookup c = none := by
  induction t with
  | nil => rfl
  | cons p tl ih =>
    have hne : (c == p.1) = false := by
      rw [beq_eq_false_iff_ne]
      intro e
      have := hk p (List.mem_cons_self p tl)
      rw [← e] at this
      omega
    obtain ⟨k, v⟩ := p
    simp only [List.lookup, hne]
    exact ih (fun q hq => hk q (List.mem_cons_of_mem _ hq))

lemma nfkd_id_of_ascii {c : Char} (hc : c.toNat ≤ 122) : nfkd c = [c] := by
  unfold nfkd
  rw [lookup_none_of_ascii nfkdTable (by decide) hc]

lemma combining_false_of_ascii {c : Char} (hc : c.toNat ≤ 122) :
    combining c = false := by
  unfold combining
  have : ¬ 768 ≤ c.toNat := by omega
  simp [this]

lemma pyLower_id {c : Char} (h : isAllowed c = true) : pyLower c = c := by
  unfold pyLower
  have : ¬(65 ≤ c.toNat && c.toNat ≤ 90) = true := by
    simp only [Bool.and_eq_true, decide_eq_true_eq, not_and, not_le]
    rcases isAllowed_elim h with h | h | h <;> omega
  simp [this]

/-- Absence of two adjacent underscores. -/
def noDoubleUnd : List Char → Bool
  | a :: b :: rest => !(a = '_' && b = '_') && noDoubleUnd (b :: rest)
  | _ => true

lemma noDoubleUnd_tail {a : Char} {l : List Char}
    (h : noDoubleUnd (a :: l) = true) : noDoubleUnd l = true := by
  cases l with
  | nil => rfl
  | cons b rest =>
    have := (Bool.and_eq_true _ _).mp h
    exact this.2

lemma noDoubleUnd_cons {a : Char} {l : List Char}
    (hl : noDoubleUnd l = true)
    (hh : ∀ b, l.head? = some b → ¬(a = '_' ∧ b = '_')) :
    noDoubleUnd (a :: l) = true := by
  cases l with
  | nil => rfl
  | cons b rest =>
    have hb := hh b rfl
    unfold noDoubleUnd
    rw [hl]
    have : (decide (a = '_') && decide (b = '_')) = false := by
      rcases Decidable.em (a = '_') with ha | ha
      · rcases Decidable.em (b = '_') with hbb | hbb
        · exact absurd ⟨ha, hbb⟩ hb
        · simp [hbb]
      · simp [ha]
    rw [this]
    rfl

lemma collapseUnders_head? (b : Char) (rest : List Char) :
    (collapseUnders (b :: rest)).head? = some b := by
  rw [collapseUnders_eq_collapseFold]
  exact collapseFold_head? b rest

lemma mem_collapseUnders {c : Char} : ∀ {l : List Char},
    c ∈ collapseUnders l → c ∈ l := by
  intro l
  induction l with
  | nil => exact fun h => h
  | cons a tl ih =>
    cases tl with
    | nil => exact fun h => h
    | cons b rest =>
      intro h
      rw [collapseUnders] at h
      by_cases hab : (decide (a = '_') && decide (b = '_')) = true
      · rw [if_pos hab] at h
        exact List.mem_cons_of_mem a (ih h)
      · rw [if_neg hab] at h
        rcases List.mem_cons.mp h with h | h
        · exact h ▸ List.mem_cons_self a _
        · exact List.mem_cons_of_mem a (ih h)

lemma noDoubleUnd_collapseUnders : ∀ (l : List Char),
    noDoubleUnd (collapseUnders l) = true := by
  intro l
  induction l with
  | nil => rfl
  | cons a tl ih =>
    cases tl with
    | nil => rfl
    | cons b rest =>
      rw [collapseUnders]
      by_cases hab : (decide (a = '_') && decide (b = '_')) = true
      · rw [if_pos hab]
        exact ih
      · rw [if_neg hab]
        refine noDoubleUnd_cons ih ?_
        intro x hx
        rw [collapseUnders_head? b rest] at hx
        intro hcon
        apply hab
        have hb : b = '_' := by
          have : x = b := by injection hx.symm
          rw [← this]; exact hcon.2
        simp [hcon.1, hb]

lemma collapseUnders_id : ∀ {l : List Char},
    noDoubleUnd l = true → collapseUnders l = l := by
  intro l
  induction l with
  | nil => exact fun _ => rfl
  | cons a tl ih =>
    intro h
    cases tl with
    | nil => rfl
    | cons b rest =>
      rw [collapseUnders]
      have hnd := (Bool.and_eq_true _ _).mp h
      have hab : (decide (a = '_') && decide (b = '_')) = false := by
        have := hnd.1
        cases hx : (decide (a = '_') && decide (b = '_')) with
        | false => rfl
        | true => rw [hx] at this; exact absurd this (by decide)
      rw [hab]
      simp only [Bool.false_eq_true, if_false]
      rw [ih hnd.2]

lemma mem_dropWhileUnd {c : Char} : ∀ {l : List Char},
    c ∈ l.dropWhile (fun x => x = '_') → c ∈ l := by
  intro l
  induction l with
  | nil => exact fun h => h
  | cons a tl ih =>
    intro h
    rw [List.dropWhile_cons] at h
    by_cases ha : a = '_'
    · rw [if_pos (by simp [ha])] at h
      exact List.mem_cons_of_mem a (ih h)
    · rw [if_neg (by simp [ha])] at h
      exact h

lemma head?_dropWhileUnd {c : Char} : ∀ {l : List Char},
    (l.dropWhile (fun x => x = '_')).head? = some c → ¬ c = '_' := by
  intro l
  induction l with
  | nil => intro h; cases h
  | cons a tl ih =>
    intro h
    rw [List.dropWhile_cons] at h
    by_cases ha : a = '_'
    · rw [if_pos (by simp [ha])] at h
      exact ih h
    · rw [if_neg (by simp [ha])] at h
      intro hc
      apply ha
      have : a = c := by injection h
      rw [this, hc]

lemma noDoubleUnd_dropWhileUnd : ∀ {l : List Char},
    noDoubleUnd l = true → noDoubleUnd (l.dropWhile (fun x => x = '_')) = true := by
  intro l
  induction l with
  | nil => exact fun h => h
  | cons a tl ih =>
    intro h
    rw [List.dropWhile_cons]
    by_cases ha : a = '_'
    · rw [if_pos (by simp [ha])]
      exact ih (noDoubleUnd_tail h)
    · rw [if_neg (by simp [ha])]
      exact h

lemma dropTrailUnd_head? {c : Char} : ∀ {l : List Char},
    (dropTrailUnd l).head? = some c → l.head? = some c := by
  intro l
  cases l with
  | nil => intro h; cases h
  | cons a tl =>
    intro h
    rw [dropTrailUnd] at h
    cases hin : dropTrailUnd tl with
    | nil =>
      rw [hin] at h
      by_cases ha : a = '_'
      · rw [if_pos ha] at h; cases h
      · rw [if_neg ha] at h
        have : a = c := by injection h
        rw [this]; rfl
    | cons x xs =>
      rw [hin] at h
      have : a = c := by injection h
      rw [this]; rfl

lemma mem_dropTrailUnd {c : Char} : ∀ {l : List Char},
    c ∈ dropTrailUnd l → c ∈ l := by
  intro l
  induction l with
  | nil => exact fun h => h
  | cons a tl ih =>
    intro h
    rw [dropTrailUnd] at h
    cases hin : dropTrailUnd tl with
    | nil =>
      rw [hin] at h
      by_cases ha : a = '_'
      · rw [if_pos ha] at h; cases h
      · rw [if_neg ha] at h
        rcases List.mem_singleton.mp h with rfl
        exact List.mem_cons_self _ _
    | cons x xs =>
      rw [hin] at h
      rcases List.mem_cons.mp h with h | h
      · exact h ▸ List.mem_cons_self _ _
      · exact List.mem_cons_of_mem a (ih (hin ▸ h))

lemma noDoubleUnd_dropTrailUnd : ∀ {l : List Char},
    noDoubleUnd l = true → noDoubleUnd (dropTrailUnd l) = true := by
  intro l
  induction l with
  | nil => exact fun h => h
  | cons a tl ih =>
    intro h
    rw [dropTrailUnd]
    cases hin : dropTrailUnd tl with
    | nil =>
      by_cases ha : a = '_'
      · rw [if_pos ha]; rfl
      · rw [if_neg ha]; rfl
    | cons x xs =>
      have hnd : noDoubleUnd (x :: xs) = true := hin ▸ ih (noDoubleUnd_tail h)
      refine noDoubleUnd_cons hnd ?_
      intro b hb
      have hx : x = b := by injection hb
      have hhead : tl.head? = some x := dropTrailUnd_head? (hin ▸ rfl)
      cases tl with
      | nil => cases hhead
      | cons t ts =>
        have ht : t = x := by injection hhead
        intro hcon
        have := (Bool.and_eq_true _ _).mp h
        have h1 := this.1
        rw [Bool.not_eq_eq_eq_not, Bool.not_true] at h1
        have : (decide (a = '_') && decide (t = '_')) = true := by
          rw [ht, hx]
          simp [hcon.1, hcon.2]
        rw [this] at h1
        cases h1

lemma getLast?_dropTrailUnd {c : Char} : ∀ {l : List Char},
    (dropTrailUnd l).getLast? = some c → ¬ c = '_' := by
  intro l
  induction l with
  | nil => intro h; cases h
  | cons a tl ih =>
    intro h
    rw [dropTrailUnd] at h
    cases hin : dropTrailUnd tl with
    | nil =>
      rw [hin] at h
      by_cases ha : a = '_'
      · rw [if_pos ha] at h; cases h
      · rw [if_neg ha] at h
        have : a = c := by
          have := List.getLast?_singleton (a := a)
          rw [this] at h
          injection h
        rw [← this]
        exact ha
    | cons x xs =>
      rw [hin] at h
      rw [List.getLast?_cons_cons] at h
      exact ih (hin ▸ h)

lemma dropWhileUnd_id {l : List Char}
    (h : ∀ c, l.head? = some c → ¬ c = '_') :
    l.dropWhile (fun x => x = '_') = l := by
  cases l with
  | nil => rfl
  | cons a tl =>
    rw [List.dropWhile_cons]
    have := h a rfl
    rw [if_neg (by simp [this])]

lemma dropTrailUnd_id : ∀ {l : List Char},
    (∀ c, l.getLast? = some c → ¬ c = '_') → dropTrailUnd l = l := by
  intro l
  induction l with
  | nil => exact fun _ => rfl
  | cons a tl ih =>
    intro h
    rw [dropTrailUnd]
    cases tl with
    | nil =>
      have := h a (by rfl)
      simp only [dropTrailUnd]
      rw [if_neg this]
    | cons b rest =>
      have htl : dropTrailUnd (b :: rest) = b :: rest := by
        apply ih
        intro c hc
        exact h c (by rw [List.getLast?_cons_cons]; exact hc)
      rw [htl]

lemma flatMap_nfkd_id {l : List Char}
    (h : ∀ c ∈ l, isAllowed c = true) : l.flatMap nfkd = l := by
  induction l with
  | nil => rfl
  | cons a tl ih =>
    rw [List.flatMap_cons]
    rw [nfkd_id_of_ascii (toNat_le_of_isAllowed (h a (List.mem_cons_self a tl)))]
    rw [ih (fun c hc => h c (List.mem_cons_of_mem a hc))]
    rfl

lemma map_id_of_mem {f : Char → Char} : ∀ {l : List Char},
    (∀ c ∈ l, f c = c) → l.map f = l := by
  intro l
  induction l with
  | nil => exact fun _ => rfl
  | cons a tl ih =>
    intro h
    rw [List.map_cons, h a (List.mem_cons_self a tl),
      ih (fun c hc => h c (List.mem_cons_of_mem a hc))]

lemma stages_id {l : List Char} (h : ∀ c ∈ l, isAllowed c = true) :
    ((((l.map underscoreDashSpace).flatMap nfkd).filter
        (fun c => !(combining c))).map pyLower).filter isAllowed = l := by
  have h1 : l.map underscoreDashSpace = l :=
    map_id_of_mem (fun c hc => underscoreDashSpace_id (h c hc))
  rw [h1, flatMap_nfkd_id h]
  have h2 : l.filter (fun c => !(combining c)) = l :=
    List.filter_eq_self.mpr (fun c hc => by
      rw [combining_false_of_ascii (toNat_le_of_isAllowed (h c hc))]; rfl)
  rw [h2]
  have h3 : l.map pyLower = l :=
    map_id_of_mem (fun c hc => pyLower_id (h c hc))
  rw [h3]
  exact List.filter_eq_self.mpr h

/-- The character list produced by the main body of `sanitize_filename`,
before the final empty-string fallback. -/
def sanitizeCore (s : String) : List Char :=
  stripUnders (collapseUnders (((((s.toList.map underscoreDashSpace).flatMap
    nfkd).filter (fun c => !(combining c))).map pyLower).filter isAllowed))

/-- The character list produced by the main body of `sanitizeSlugSpec`. -/
def sanitizeSpecCore (s : String) : List Char :=
  dropTrailRev ((collapseFold (((((s.toList.map underscoreDashSpace).flatMap
    nfkd).filter (fun c => !(combining c))).map pyLower).filter
    isAllowed)).dropWhile (fun c => c = '_'))

lemma sanitize_filename_eq (s : String) :
    sanitize_filename s =
      if (sanitizeCore s).isEmpty then "image" else String.mk (sanitizeCore s) := rfl

lemma sanitizeSlugSpec_eq (s : String) :
    sanitizeSlugSpec s =
      if (sanitizeSpecCore s).isEmpty then "image"
      else String.mk (sanitizeSpecCore s) := rfl

lemma sanitizeCore_eq_specCore (s : String) :
    sanitizeCore s = sanitizeSpecCore s := by
  unfold sanitizeCore sanitizeSpecCore stripUnders
  rw [collapseUnders_eq_collapseFold, dropTrailUnd_eq_dropTrailRev]

lemma sanitize_output_shape (s : String) :
    sanitize_filename s = "image" ∨
    ∃ l, sanitize_filename s = String.mk l ∧ l ≠ [] ∧
      (∀ c ∈ l, isAllowed c = true) ∧ noDoubleUnd l = true ∧
      (∀ c, l.head? = some c → ¬ c = '_') ∧
      (∀ c, l.getLast? = some c → ¬ c = '_') := by
  rw [sanitize_filename_eq]
  by_cases he : (sanitizeCore s).isEmpty
  · left
    rw [if_pos he]
  · right
    refine ⟨sanitizeCore s, by rw [if_neg he], ?_, ?_, ?_, ?_, ?_⟩
    · intro hnil
      rw [List.isEmpty_iff] at he
      exact he hnil
    · intro c hc
      unfold sanitizeCore stripUnders at hc
      have h1 := mem_collapseUnders (mem_dropWhileUnd (mem_dropTrailUnd hc))
      exact List.of_mem_filter h1
    · exact noDoubleUnd_dropTrailUnd (noDoubleUnd_dropWhileUnd
        (noDoubleUnd_collapseUnders _))
    · intro c hc
      unfold sanitizeCore stripUnders at hc
      exact head?_dropWhileUnd (dropTrailUnd_head? hc)
    · intro c hc
      unfold sanitizeCore stripUnders at hc
      exact getLast?_dropTrailUnd hc

lemma sanitize_fixed {l : List Char} (hne : l ≠ [])
    (hall : ∀ c ∈ l, isAllowed c = true) (hnd : noDoubleUnd l = true)
    (hhd : ∀ c, l.head? = some c → ¬ c = '_')
    (hlast : ∀ c, l.getLast? = some c → ¬ c = '_') :
    sanitize_filename (String.mk l) = String.mk l := by
  have hcore : sanitizeCore (String.mk l) = l := by
    unfold sanitizeCore
    rw [show (String.mk l).toList = l from rfl, stages_id hall,
      collapseUnders_id hnd]
    unfold stripUnders
    rw [dropWhileUnd_id hhd, dropTrailUnd_id hlast]
  rw [sanitize_filename_eq, hcore]
  have : l.isEmpty = false := by
    cases l with
    | nil => exact absurd rfl hne
    | cons a tl => rfl
  rw [this]
  rfl

/-- C2 (confirmed): the embedded `sanitize_filename` agrees with the slug
construction written from the specification text on every input string,
and the two reference values hold: the empty string and a string of
punctuation both map to the literal fallback `image`. -/
theorem sanitize_matches_spec :
    (∀ s, sanitize_filename s = sanitizeSlugSpec s) ∧
    sanitize_filename "" = "image" ∧ sanitize_filename "!!!" = "image" := by
  refine ⟨?_, by decide, by decide⟩
  intro s
  rw [sanitize_filename_eq, sanitizeSlugSpec_eq, sanitizeCore_eq_specCore]

/-- C3 (confirmed): `sanitize_filename` is idempotent; a second
application returns the first result unchanged, for every input string. -/
theorem sanitize_idempotent (s : String) :
    sanitize_filename (sanitize_filename s) = sanitize_filename s := by
  rcases sanitize_output_shape s with h | ⟨l, hEq, hne, hall, hnd, hhd, hlast⟩
  · rw [h]; decide
  · rw [hEq]
    exact sanitize_fixed hne hall hnd hhd hlast

/-! ## Exact model of the binary64 arithmetic in `resize_preserve_ratio`
(lines 60-69).  Python computes `int(h * (max_size / w))` in IEEE double
precision.  A positive double is a dyadic rational with a 53-bit
significand; both the division and the multiplication round to nearest,
ties to even.  The model below represents a double as a pair of a natural
significand and an integer exponent and performs that rounding exactly.
Overflow and subnormals are not modelled; they cannot occur for the
dimension ranges considered here. -/

/-- Fuel-driven floor of the base-2 logarithm (structural recursion, so
that kernel reduction works on large literals). -/
def natLog2Aux : ℕ → ℕ → ℕ
  | 0, _ => 0
  | fuel + 1, n => if 2 ≤ n then natLog2Aux fuel (n / 2) + 1 else 0

/-- Floor of the base-2 logarithm of a positive natural number. -/
def natLog2 (n : ℕ) : ℕ := natLog2Aux n n

lemma natLog2Aux_spec : ∀ (fuel n : ℕ), 1 ≤ n → n ≤ fuel →
    2 ^ natLog2Aux fuel n ≤ n ∧ n < 2 ^ (natLog2Aux fuel n + 1) := by
  intro fuel
  induction fuel with
  | zero => intro n h1 h2; omega
  | succ fuel ih =>
    intro n h1 h2
    rw [natLog2Aux]
    by_cases h : 2 ≤ n
    · rw [if_pos h]
      have hrec := ih (n / 2) (by omega) (by omega)
      have hl := hrec.1
      have hr := hrec.2
      constructor
      · rw [pow_succ]
        omega
      · rw [pow_succ]
        omega
    · rw [if_neg h]
      constructor
      · simpa using h1
      · simpa using by omega

lemma natLog2_spec {n : ℕ} (h : 1 ≤ n) :
    2 ^ natLog2 n ≤ n ∧ n < 2 ^ (natLog2 n + 1) :=
  natLog2Aux_spec n n h le_rfl

/-- Floor of the base-2 logarithm of the positive rational `a / b`. -/
def rlog2 (a b : ℕ) : ℤ :=
  if b * 2 ^ natLog2 a ≤ a * 2 ^ natLog2 b then (natLog2 a : ℤ) - natLog2 b
  else (natLog2 a : ℤ) - natLog2 b - 1

/-- Round the fraction `num / den` to the nearest integer, ties to even
(the IEEE default rounding of the final significand). -/
def rhe (num den : ℕ) : ℕ :=
  if 2 * (num % den) < den then num / den
  else if den < 2 * (num % den) then num / den + 1
  else if (num / den) % 2 = 0 then num / den else num / den + 1

/-- Round the positive rational `a / b` to a binary64 value, returned as
significand and exponent.  The exponent is chosen so that the significand
occupies 53 bits, then the scaled fraction is rounded to the nearest
integer, ties to even. -/
def rnd53 (a b : ℕ) : ℕ × ℤ :=
  let e : ℤ := rlog2 a b - 52
  (rhe (a * 2 ^ (-e).toNat) (b * 2 ^ e.toNat), e)

/-- Exact rational value of a significand-exponent pair. -/
def dval (p : ℕ × ℤ) : ℚ := (p.1 : ℚ) * (2 : ℚ) ^ p.2

/-- One binary64 multiplication of a Python int by a double: the exact
product of the significands is rounded back to 53 bits. -/
def mulRnd (n : ℕ) (p : ℕ × ℤ) : ℕ × ℤ :=
  let r := rnd53 (n * p.1) 1
  (r.1, r.2 + p.2)

/-- Python `int()` applied to a nonnegative double: truncation toward
zero, which for a nonnegative dyadic value is a floor. -/
def pyTrunc (p : ℕ × ℤ) : ℕ :=
  if 0 ≤ p.2 then p.1 * 2 ^ p.2.toNat else p.1 / 2 ^ (-p.2).toNat

/-- Embedding of the scaled-dimension expression
`int(other * (max_size / length))` of lines 65 and 69, in exact binary64
semantics. -/
def scaledDim (maxSize len other : ℕ) : ℕ :=
  pyTrunc (mulRnd other (rnd53 maxSize len))

/-- The fixed target bound (line 34). -/
def TARGET_SIZE : ℕ := 3333

/-- The fixed DPI metadata tag (line 35). -/
def TARGET_DPI : ℕ × ℕ := (53, 53)

/-- Dimension computation of `resize_preserve_ratio` (lines 60-69): the
branch `w >= h` pins the width to `max_size`, the other branch pins the
height. -/
def resizeDims (w h maxSize : ℕ) : ℕ × ℕ :=
  if h ≤ w then (maxSize, scaledDim maxSize w h)
  else (scaledDim maxSize h w, maxSize)

lemma rhe_ge_div (num den : ℕ) : num / den ≤ rhe num den := by
  unfold rhe
  split
  · exact le_rfl
  · split
    · omega
    · split <;> omega

lemma rhe_bounds (num den : ℕ) (hd : 1 ≤ den) :
    (num : ℚ) / den - 1 / 2 ≤ (rhe num den : ℚ) ∧
    (rhe num den : ℚ) ≤ (num : ℚ) / den + 1 / 2 := by
  have hdQ : (0 : ℚ) < den := by exact_mod_cast hd
  have hmod : den * (num / den) + num % den = num := Nat.div_add_mod num den
  have hrlt : num % den < den := Nat.mod_lt _ (by omega)
  have hcast : (num : ℚ) = (den : ℚ) * ((num / den : ℕ) : ℚ) + ((num % den : ℕ) : ℚ) := by
    exact_mod_cast hmod.symm
  have hkey : (num : ℚ) / den = ((num / den : ℕ) : ℚ) + ((num % den : ℕ) : ℚ) / den := by
    rw [hcast]
    field_simp
    ring
  have hrban : (0 : ℚ) ≤ ((num % den : ℕ) : ℚ) / den := by positivity
  have hrub : ((num % den : ℕ) : ℚ) / den < 1 := by
    rw [div_lt_one hdQ]
    exact_mod_cast hrlt
  unfold rhe
  split
  · rename_i h
    have h2 : ((2 * (num % den) : ℕ) : ℚ) ≤ (den : ℚ) := by exact_mod_cast Nat.le_of_lt h
    have hh : ((num % den : ℕ) : ℚ) / den ≤ 1 / 2 := by
      rw [div_le_div_iff hdQ (by norm_num)]
      push_cast at h2 ⊢
      linarith
    constructor
    · rw [hkey]; linarith
    · rw [hkey]; linarith
  · split
    · rename_i h1 h2
      have h2c : (den : ℚ) ≤ ((2 * (num % den) : ℕ) : ℚ) := by exact_mod_cast Nat.le_of_lt h2
      have hh : 1 / 2 ≤ ((num % den : ℕ) : ℚ) / den := by
        rw [div_le_div_iff (by norm_num) hdQ]
        push_cast at h2c ⊢
        linarith
      constructor
      · rw [hkey]; push_cast; linarith
      · rw [hkey]; push_cast; linarith
    · rename_i h1 h2
      have htie : 2 * (num % den) = den := by omega
      have hh : ((num % den : ℕ) : ℚ) / den = 1 / 2 := by
        rw [div_eq_div_iff (ne_of_gt hdQ) (by norm_num : (2 : ℚ) ≠ 0)]
        have hc : ((2 * (num % den) : ℕ) : ℚ) = (den : ℚ) := by exact_mod_cast htie
        push_cast at hc ⊢
        linarith
      split
      · constructor
        · rw [hkey]; linarith
        · rw [hkey]; linarith
      · constructor
        · rw [hkey]; push_cast; linarith
        · rw [hkey]; push_cast; linarith

lemma rlog2_bounds {a b : ℕ} (ha : 1 ≤ a) (hb : 1 ≤ b) :
    (2 : ℚ) ^ (rlog2 a b) ≤ (a : ℚ) / b ∧ (a : ℚ) / b < (2 : ℚ) ^ (rlog2 a b + 1) := by
  obtain ⟨hla, hla2⟩ := natLog2_spec ha
  obtain ⟨hlb, hlb2⟩ := natLog2_spec hb
  have hbQ : (0 : ℚ) < b := by exact_mod_cast hb
  have h2a : (0 : ℚ) < (2 : ℚ) ^ (natLog2 a : ℤ) := by positivity
  have h2b : (0 : ℚ) < (2 : ℚ) ^ (natLog2 b : ℤ) := by positivity
  have hca : ((2 ^ natLog2 a : ℕ) : ℚ) = (2 : ℚ) ^ (natLog2 a : ℤ) := by
    push_cast
    rw [zpow_natCast]
  have hcb : ((2 ^ natLog2 b : ℕ) : ℚ) = (2 : ℚ) ^ (natLog2 b : ℤ) := by
    push_cast
    rw [zpow_natCast]
  unfold rlog2
  split
  · rename_i hcmp
    constructor
    · rw [zpow_sub₀ (by norm_num : (2:ℚ) ≠ 0), div_le_div_iff h2b hbQ]
      have : ((b * 2 ^ natLog2 a : ℕ) : ℚ) ≤ ((a * 2 ^ natLog2 b : ℕ) : ℚ) := by
        exact_mod_cast hcmp
      push_cast at this
      rw [zpow_natCast, zpow_natCast] at *
      push_cast
      linarith
    · have hstep : (2 : ℚ) ^ ((natLog2 a : ℤ) - natLog2 b + 1)
          = (2 : ℚ) ^ ((natLog2 a : ℤ) + 1) / (2 : ℚ) ^ (natLog2 b : ℤ) := by
        rw [← zpow_sub₀ (by norm_num : (2:ℚ) ≠ 0)]
        congr 1
        ring
      rw [hstep, div_lt_div_iff hbQ h2b]
      have h1 : (a : ℚ) < (2 : ℚ) ^ ((natLog2 a : ℤ) + 1) := by
        have : ((a : ℕ) : ℚ) < ((2 ^ (natLog2 a + 1) : ℕ) : ℚ) := by exact_mod_cast hla2
        push_cast at this
        rw [show ((natLog2 a : ℤ) + 1) = ((natLog2 a + 1 : ℕ) : ℤ) by push_cast; ring,
          zpow_natCast]
        push_cast
        linarith
      have h2 : (2 : ℚ) ^ (natLog2 b : ℤ) ≤ (b : ℚ) := by
        have : ((2 ^ natLog2 b : ℕ) : ℚ) ≤ ((b : ℕ) : ℚ) := by exact_mod_cast hlb
        rw [hcb] at this
        exact this
      have hb0 : (0 : ℚ) ≤ (a : ℚ) := by positivity
      calc (a : ℚ) * (2 : ℚ) ^ (natLog2 b : ℤ) ≤ (a : ℚ) * b := by
            exact mul_le_mul_of_nonneg_left h2 hb0
        _ < (2 : ℚ) ^ ((natLog2 a : ℤ) + 1) * b := by
            exact mul_lt_mul_of_pos_right h1 hbQ
  · rename_i hcmp
    push_neg at hcmp
    constructor
    · have hstep : (2 : ℚ) ^ ((natLog2 a : ℤ) - natLog2 b - 1)
          = (2 : ℚ) ^ (natLog2 a : ℤ) / (2 : ℚ) ^ ((natLog2 b : ℤ) + 1) := by
        rw [← zpow_sub₀ (by norm_num : (2:ℚ) ≠ 0)]
        congr 1
        ring
      have h2b1 : (0 : ℚ) < (2 : ℚ) ^ ((natLog2 b : ℤ) + 1) := by positivity
      rw [hstep, div_le_div_iff h2b1 hbQ]
      have h1 : (2 : ℚ) ^ (natLog2 a : ℤ) ≤ (a : ℚ) := by
        have : ((2 ^ natLog2 a : ℕ) : ℚ) ≤ ((a : ℕ) : ℚ) := by exact_mod_cast hla
        rw [hca] at this
        exact this
      have h2 : (b : ℚ) ≤ (2 : ℚ) ^ ((natLog2 b : ℤ) + 1) := by
        have : ((b : ℕ) : ℚ) < ((2 ^ (natLog2 b + 1) : ℕ) : ℚ) := by exact_mod_cast hlb2
        push_cast at this
        rw [show ((natLog2 b : ℤ) + 1) = ((natLog2 b + 1 : ℕ) : ℤ) by push_cast; ring,
          zpow_natCast]
        push_cast
        linarith
      have ha0 : (0 : ℚ) ≤ (a : ℚ) := by positivity
      have h2a0 : (0 : ℚ) ≤ (2 : ℚ) ^ (natLog2 a : ℤ) := le_of_lt h2a
      calc (2 : ℚ) ^ (natLog2 a : ℤ) * (b : ℚ)
            ≤ (a : ℚ) * b := mul_le_mul_of_nonneg_right h1 (le_of_lt hbQ)
        _ ≤ (a : ℚ) * (2 : ℚ) ^ ((natLog2 b : ℤ) + 1) := mul_le_mul_of_nonneg_left h2 ha0
    · rw [show (natLog2 a : ℤ) - natLog2 b - 1 + 1 = (natLog2 a : ℤ) - natLog2 b by ring,
        zpow_sub₀ (by norm_num : (2:ℚ) ≠ 0), div_lt_div_iff hbQ h2b]
      have : ((a * 2 ^ natLog2 b : ℕ) : ℚ) < ((b * 2 ^ natLog2 a : ℕ) : ℚ) := by
        exact_mod_cast hcmp
      push_cast at this
      rw [zpow_natCast, zpow_natCast]
      push_cast
      linarith

lemma pow_toNat_div_eq_zpow (e : ℤ) :
    ((2 : ℚ) ^ (-e).toNat) / ((2 : ℚ) ^ e.toNat) = (2 : ℚ) ^ (-e) := by
  rw [← zpow_natCast (2 : ℚ) (-e).toNat, ← zpow_natCast (2 : ℚ) e.toNat,
    ← zpow_sub₀ (by norm_num : (2:ℚ) ≠ 0)]
  congr 1
  omega

lemma rnd53_num_den (a b : ℕ) (hb : 1 ≤ b) :
    ((a * 2 ^ (-(rlog2 a b - 52)).toNat : ℕ) : ℚ) / ((b * 2 ^ (rlog2 a b - 52).toNat : ℕ) : ℚ)
      = (a : ℚ) / b * (2 : ℚ) ^ (-(rlog2 a b - 52)) := by
  push_cast
  rw [mul_div_mul_comm, pow_toNat_div_eq_zpow]

lemma rnd53_fst_pos {a b : ℕ} (ha : 1 ≤ a) (hb : 1 ≤ b) : 1 ≤ (rnd53 a b).1 := by
  have hE := (rlog2_bounds ha hb).1
  set e : ℤ := rlog2 a b - 52 with he
  set num := a * 2 ^ (-e).toNat with hnum
  set den := b * 2 ^ e.toNat with hden
  have hdpos : 1 ≤ den := by
    have h1 : 1 ≤ 2 ^ e.toNat := Nat.one_le_two_pow
    calc 1 = 1 * 1 := rfl
      _ ≤ b * 2 ^ e.toNat := Nat.mul_le_mul hb h1
  have hdQ : (0 : ℚ) < (den : ℚ) := by exact_mod_cast hdpos
  have hval : ((num : ℕ) : ℚ) / ((den : ℕ) : ℚ) = (a : ℚ) / b * (2 : ℚ) ^ (-e) :=
    rnd53_num_den a b hb
  have hge0 : (2 : ℚ) ^ (52 : ℤ) ≤ (a : ℚ) / b * (2 : ℚ) ^ (-e) := by
    have h1 : (2 : ℚ) ^ (rlog2 a b) * (2 : ℚ) ^ (-e) ≤ (a : ℚ) / b * (2 : ℚ) ^ (-e) := by
      apply mul_le_mul_of_nonneg_right hE
      positivity
    have h2 : (2 : ℚ) ^ (rlog2 a b) * (2 : ℚ) ^ (-e) = (2 : ℚ) ^ (52 : ℤ) := by
      rw [← zpow_add₀ (by norm_num : (2:ℚ) ≠ 0)]
      congr 1
      omega
    linarith
  have hge : (2 : ℚ) ^ (52 : ℤ) ≤ ((num : ℕ) : ℚ) / ((den : ℕ) : ℚ) := by
    rw [hval]
    exact hge0
  have hnat : 2 ^ 52 * den ≤ num := by
    have hq : ((2 ^ 52 * den : ℕ) : ℚ) ≤ ((num : ℕ) : ℚ) := by
      rw [le_div_iff hdQ] at hge
      have hc : (2:ℚ) ^ (52 : ℤ) = (2:ℚ) ^ (52 : ℕ) := by
        rw [show (52 : ℤ) = ((52 : ℕ) : ℤ) from rfl, zpow_natCast]
      rw [hc] at hge
      push_cast
      linarith
    exact_mod_cast hq
  have hqdiv : 2 ^ 52 ≤ num / den := (Nat.le_div_iff_mul_le (by omega)).mpr hnat
  have hrhe := rhe_ge_div num den
  show 1 ≤ rhe num den
  calc 1 ≤ 2 ^ 52 := by norm_num
    _ ≤ num / den := hqdiv
    _ ≤ rhe num den := hrhe

lemma rnd53_bounds {a b : ℕ} (ha : 1 ≤ a) (hb : 1 ≤ b) :
    (a : ℚ) / b * (1 - (2:ℚ) ^ (-53 : ℤ)) ≤ dval (rnd53 a b) ∧
    dval (rnd53 a b) ≤ (a : ℚ) / b * (1 + (2:ℚ) ^ (-53 : ℤ)) := by
  obtain ⟨hE1, _⟩ := rlog2_bounds ha hb
  set e : ℤ := rlog2 a b - 52 with he
  set num := a * 2 ^ (-e).toNat with hnum
  set den := b * 2 ^ e.toNat with hden
  have hdpos : 1 ≤ den := by
    have : 1 ≤ 2 ^ e.toNat := Nat.one_le_two_pow
    exact Nat.one_le_iff_ne_zero.mpr (by positivity)
  obtain ⟨hlo, hhi⟩ := rhe_bounds num den hdpos
  have hval : ((num : ℕ) : ℚ) / ((den : ℕ) : ℚ) = (a : ℚ) / b * (2 : ℚ) ^ (-e) :=
    rnd53_num_den a b hb
  have hdval : dval (rnd53 a b) = ((rhe num den : ℕ) : ℚ) * (2 : ℚ) ^ e := rfl
  have hepos : (0 : ℚ) < (2 : ℚ) ^ e := by positivity
  have hcancel : (2 : ℚ) ^ (-e) * (2 : ℚ) ^ e = 1 := by
    rw [← zpow_add₀ (by norm_num : (2:ℚ) ≠ 0)]
    norm_num
  have herr : (2 : ℚ) ^ e / 2 ≤ (a : ℚ) / b * (2:ℚ) ^ (-53 : ℤ) := by
    have h1 : (2 : ℚ) ^ e = (2 : ℚ) ^ (rlog2 a b) * (2 : ℚ) ^ (-52 : ℤ) := by
      rw [← zpow_add₀ (by norm_num : (2:ℚ) ≠ 0)]
      have hex : rlog2 a b + (-52 : ℤ) = e := by omega
      rw [hex]
    have h2 : (2 : ℚ) ^ (rlog2 a b) * (2 : ℚ) ^ (-52 : ℤ)
        ≤ (a : ℚ) / b * (2 : ℚ) ^ (-52 : ℤ) := by
      apply mul_le_mul_of_nonneg_right hE1
      positivity
    have h3 : (a : ℚ) / b * (2 : ℚ) ^ (-52 : ℤ) / 2 = (a : ℚ) / b * (2:ℚ) ^ (-53 : ℤ) := by
      rw [mul_div_assoc]
      congr 1
      rw [show ((2:ℚ) ^ (-52 : ℤ) / 2) = (2:ℚ) ^ (-52 : ℤ) / (2:ℚ) ^ (1 : ℤ) by norm_num,
        ← zpow_sub₀ (by norm_num : (2:ℚ) ≠ 0)]
      norm_num
    rw [h1]
    linarith
  constructor
  · rw [hdval]
    have hmul : (((num : ℕ) : ℚ) / den - 1 / 2) * (2 : ℚ) ^ e
        ≤ ((rhe num den : ℕ) : ℚ) * (2 : ℚ) ^ e :=
      mul_le_mul_of_nonneg_right hlo (le_of_lt hepos)
    have hexp : (((num : ℕ) : ℚ) / den - 1 / 2) * (2 : ℚ) ^ e
        = (a : ℚ) / b - (2 : ℚ) ^ e / 2 := by
      rw [sub_mul, hval, mul_assoc, hcancel, mul_one]
      ring
    rw [hexp] at hmul
    have : (a : ℚ) / b * (1 - (2:ℚ) ^ (-53 : ℤ)) = (a : ℚ) / b - (a : ℚ) / b * (2:ℚ) ^ (-53 : ℤ) := by
      ring
    linarith
  · rw [hdval]
    have hmul : ((rhe num den : ℕ) : ℚ) * (2 : ℚ) ^ e
        ≤ (((num : ℕ) : ℚ) / den + 1 / 2) * (2 : ℚ) ^ e :=
      mul_le_mul_of_nonneg_right hhi (le_of_lt hepos)
    have hexp : (((num : ℕ) : ℚ) / den + 1 / 2) * (2 : ℚ) ^ e
        = (a : ℚ) / b + (2 : ℚ) ^ e / 2 := by
      rw [add_mul, hval, mul_assoc, hcancel, mul_one]
      ring
    rw [hexp] at hmul
    have : (a : ℚ) / b * (1 + (2:ℚ) ^ (-53 : ℤ)) = (a : ℚ) / b + (a : ℚ) / b * (2:ℚ) ^ (-53 : ℤ) := by
      ring
    linarith

lemma dval_nonneg (p : ℕ × ℤ) : 0 ≤ dval p := by
  unfold dval
  positivity

lemma mulRnd_bounds (n : ℕ) (p : ℕ × ℤ) (hn : 1 ≤ n) (hp : 1 ≤ p.1) :
    (n : ℚ) * dval p * (1 - (2:ℚ) ^ (-53 : ℤ)) ≤ dval (mulRnd n p) ∧
    dval (mulRnd n p) ≤ (n : ℚ) * dval p * (1 + (2:ℚ) ^ (-53 : ℤ)) := by
  have hnp : 1 ≤ n * p.1 := Nat.mul_le_mul hn hp
  obtain ⟨hlo, hhi⟩ := rnd53_bounds hnp (le_refl 1)
  have hediv : ((n * p.1 : ℕ) : ℚ) / ((1 : ℕ) : ℚ) = (n : ℚ) * (p.1 : ℚ) := by
    push_cast
    ring
  rw [hediv] at hlo hhi
  have hdm : dval (mulRnd n p) = dval (rnd53 (n * p.1) 1) * (2 : ℚ) ^ p.2 := by
    unfold mulRnd dval
    rw [zpow_add₀ (by norm_num : (2:ℚ) ≠ 0)]
    ring
  have hpow : (0 : ℚ) < (2 : ℚ) ^ p.2 := by positivity
  have hdp : (n : ℚ) * dval p = (n : ℚ) * (p.1 : ℚ) * (2 : ℚ) ^ p.2 := by
    unfold dval
    ring
  constructor
  · rw [hdm, hdp]
    have := mul_le_mul_of_nonneg_right hlo (le_of_lt hpow)
    calc (n : ℚ) * (p.1 : ℚ) * (2 : ℚ) ^ p.2 * (1 - (2:ℚ) ^ (-53 : ℤ))
        = (n : ℚ) * (p.1 : ℚ) * (1 - (2:ℚ) ^ (-53 : ℤ)) * (2 : ℚ) ^ p.2 := by ring
      _ ≤ dval (rnd53 (n * p.1) 1) * (2 : ℚ) ^ p.2 := this
  · rw [hdm, hdp]
    have := mul_le_mul_of_nonneg_right hhi (le_of_lt hpow)
    calc dval (rnd53 (n * p.1) 1) * (2 : ℚ) ^ p.2
        ≤ (n : ℚ) * (p.1 : ℚ) * (1 + (2:ℚ) ^ (-53 : ℤ)) * (2 : ℚ) ^ p.2 := this
      _ = (n : ℚ) * (p.1 : ℚ) * (2 : ℚ) ^ p.2 * (1 + (2:ℚ) ^ (-53 : ℤ)) := by ring

lemma floor_nat_div (a b : ℕ) (hb : 1 ≤ b) :
    ⌊(a : ℚ) / (b : ℚ)⌋ = ((a / b : ℕ) : ℤ) := by
  have hbQ : (0 : ℚ) < b := by exact_mod_cast hb
  rw [Int.floor_eq_iff]
  constructor
  · push_cast
    rw [le_div_iff hbQ]
    exact_mod_cast Nat.div_mul_le_self a b
  · push_cast
    rw [div_lt_iff hbQ]
    have hx : a < (a / b + 1) * b := by
      have h1 := Nat.div_add_mod a b
      have h2 := Nat.mod_lt a (show 0 < b by omega)
      calc a = b * (a / b) + a % b := h1.symm
        _ < b * (a / b) + b := by omega
        _ = (a / b + 1) * b := by ring
    exact_mod_cast hx

lemma pyTrunc_eq_floor (p : ℕ × ℤ) : (pyTrunc p : ℤ) = ⌊dval p⌋ := by
  unfold pyTrunc dval
  split
  · rename_i hpos
    obtain ⟨k, hk⟩ : ∃ k : ℕ, p.2 = (k : ℤ) := ⟨p.2.toNat, by omega⟩
    rw [hk, Int.toNat_natCast, zpow_natCast]
    have hcast : (p.1 : ℚ) * (2 : ℚ) ^ k = ((p.1 * 2 ^ k : ℕ) : ℚ) := by
      push_cast
      ring
    rw [hcast, Int.floor_natCast]
  · rename_i hneg
    obtain ⟨k, hk⟩ : ∃ k : ℕ, p.2 = -(k : ℤ) := ⟨(-p.2).toNat, by omega⟩
    rw [hk]
    simp only [neg_neg, Int.toNat_natCast]
    rw [zpow_neg, zpow_natCast]
    have hcast : (p.1 : ℚ) * ((2 : ℚ) ^ k)⁻¹ = (p.1 : ℚ) / ((2 ^ k : ℕ) : ℚ) := by
      push_cast
      ring
    rw [hcast, floor_nat_div _ _ Nat.one_le_two_pow]

lemma trunc_window {x t eps : ℚ} (heps0 : 0 < eps) (heps1 : eps ≤ 1)
    (ht0 : 0 ≤ t) (hte : t * eps ≤ 1 / 8)
    (hx1 : t * (1 - eps) * (1 - eps) ≤ x) (hx2 : x ≤ t * (1 + eps) * (1 + eps)) :
    t - 1 / 2 ≤ x ∧ x ≤ t + 1 / 2 := by
  have hsq : t * eps * eps ≤ 1 / 8 := by
    calc t * eps * eps ≤ (1 / 8) * 1 := mul_le_mul hte heps1 (le_of_lt heps0) (by norm_num)
      _ = 1 / 8 := by norm_num
  have hsq0 : 0 ≤ t * eps * eps := by positivity
  have he1 : t * (1 + eps) * (1 + eps) = t + 2 * (t * eps) + t * eps * eps := by ring
  have he2 : t * (1 - eps) * (1 - eps) = t - 2 * (t * eps) + t * eps * eps := by ring
  have hte0 : 0 ≤ t * eps := by positivity
  constructor
  · rw [he2] at hx1
    linarith
  · rw [he1] at hx2
    linarith

lemma scaledDim_bounds (mx len other : ℕ) (hmx : 1 ≤ mx) (hlen : 1 ≤ len)
    (hother : 1 ≤ other) (hsmall : (other : ℚ) * mx / len ≤ 2 ^ 50) :
    ((other * mx / len : ℕ) : ℤ) - 1 ≤ (scaledDim mx len other : ℤ) ∧
    (scaledDim mx len other : ℤ) ≤ ((other * mx / len : ℕ) : ℤ) + 1 := by
  have hepsval : (2:ℚ) ^ (-53 : ℤ) = ((2:ℚ) ^ (53:ℕ))⁻¹ := by
    rw [zpow_neg, show (53 : ℤ) = ((53 : ℕ) : ℤ) from rfl, zpow_natCast]
  set eps : ℚ := (2:ℚ) ^ (-53 : ℤ) with heps
  have heps0 : (0:ℚ) < eps := by rw [hepsval]; positivity
  have heps1 : eps ≤ 1 := by rw [hepsval]; norm_num
  set t : ℚ := (other : ℚ) * mx / len with hts
  have ht0 : 0 ≤ t := by rw [hts]; positivity
  have ht_eps : t * eps ≤ 1 / 8 := by
    have h1 : t * eps ≤ (2:ℚ) ^ 50 * eps :=
      mul_le_mul_of_nonneg_right hsmall (le_of_lt heps0)
    have h2 : (2:ℚ) ^ 50 * eps = 1 / 8 := by
      rw [hepsval]
      norm_num
    linarith
  set T0 : ℚ := (mx : ℚ) / len with hT0s
  have hT0pos : 0 < T0 := by rw [hT0s]; positivity
  have htT0 : t = (other : ℚ) * T0 := by rw [hts, hT0s, mul_div_assoc]
  obtain ⟨hA1, hA2⟩ := rnd53_bounds hmx hlen
  have hApos := rnd53_fst_pos hmx hlen
  obtain ⟨hB1, hB2⟩ := mulRnd_bounds other (rnd53 mx len) hother hApos
  have hoth0 : (0:ℚ) ≤ (other : ℚ) := by positivity
  have h1pe : (0:ℚ) ≤ 1 + eps := by linarith
  have h1me : (0:ℚ) ≤ 1 - eps := by linarith
  have hup1 : dval (mulRnd other (rnd53 mx len)) ≤ t * (1 + eps) * (1 + eps) := by
    have hOA : (other : ℚ) * dval (rnd53 mx len) ≤ t * (1 + eps) := by
      have hmm := mul_le_mul_of_nonneg_left hA2 hoth0
      rw [htT0]
      calc (other : ℚ) * dval (rnd53 mx len) ≤ (other : ℚ) * ((mx : ℚ) / len * (1 + (2:ℚ) ^ (-53 : ℤ))) := hmm
        _ = (other : ℚ) * T0 * (1 + eps) := by rw [hT0s, heps]; ring
    calc dval (mulRnd other (rnd53 mx len))
        ≤ (other : ℚ) * dval (rnd53 mx len) * (1 + (2:ℚ) ^ (-53 : ℤ)) := hB2
      _ = (other : ℚ) * dval (rnd53 mx len) * (1 + eps) := by rw [heps]
      _ ≤ t * (1 + eps) * (1 + eps) := mul_le_mul_of_nonneg_right hOA h1pe
  have hlow1 : t * (1 - eps) * (1 - eps) ≤ dval (mulRnd other (rnd53 mx len)) := by
    have hOA : t * (1 - eps) ≤ (other : ℚ) * dval (rnd53 mx len) := by
      have hmm := mul_le_mul_of_nonneg_left hA1 hoth0
      rw [htT0]
      calc (other : ℚ) * T0 * (1 - eps)
          = (other : ℚ) * ((mx : ℚ) / len * (1 - (2:ℚ) ^ (-53 : ℤ))) := by rw [hT0s, heps]; ring
        _ ≤ (other : ℚ) * dval (rnd53 mx len) := hmm
    calc t * (1 - eps) * (1 - eps)
        ≤ (other : ℚ) * dval (rnd53 mx len) * (1 - eps) := mul_le_mul_of_nonneg_right hOA h1me
      _ = (other : ℚ) * dval (rnd53 mx len) * (1 - (2:ℚ) ^ (-53 : ℤ)) := by rw [heps]
      _ ≤ dval (mulRnd other (rnd53 mx len)) := hB1
  obtain ⟨hlb, hub⟩ := trunc_window heps0 heps1 ht0 ht_eps hlow1 hup1
  have hfloor : (scaledDim mx len other : ℤ) = ⌊dval (mulRnd other (rnd53 mx len))⌋ :=
    pyTrunc_eq_floor _
  have hfl_t : ⌊t⌋ = ((other * mx / len : ℕ) : ℤ) := by
    have hcast : t = ((other * mx : ℕ) : ℚ) / ((len : ℕ) : ℚ) := by
      rw [hts]
      push_cast
      ring
    rw [hcast, floor_nat_div _ _ hlen]
  constructor
  · rw [hfloor, ← hfl_t]
    have h1 : (⌊t⌋ - 1 : ℤ) = ⌊t - (1:ℤ)⌋ := (Int.floor_sub_int t 1).symm
    rw [h1]
    apply Int.floor_mono
    push_cast
    linarith
  · rw [hfloor, ← hfl_t]
    have h1 : (⌊t⌋ + 1 : ℤ) = ⌊t + (1:ℤ)⌋ := (Int.floor_add_int t 1).symm
    rw [h1]
    apply Int.floor_mono
    push_cast
    linarith

/-! ## Image model and `resize_preserve_ratio` (lines 48-71) -/

/-- Pillow color modes relevant to the script. -/
inductive PMode where
  | RGB | RGBA | LA | P | L | CMYK
deriving DecidableEq

/-- Syntactic trace of the Pillow operations applied to pixel content:
source data, `Image.convert`, the white `Image.new` canvas,
`Image.alpha_composite` and `Image.resize`. -/
inductive ImgData where
  | srcData (id : ℕ)
  | converted (m : PMode) (d : ImgData)
  | whiteCanvas (w h : ℕ)
  | composited (bg fg : ImgData)
  | resized (w h : ℕ) (d : ImgData)
deriving DecidableEq

/-- In-memory image: mode, dimensions and content trace. -/
structure PImg where
  mode : PMode
  width : ℕ
  height : ℕ
  data : ImgData
deriving DecidableEq

/-- `img.convert(m)`: same dimensions, new mode. -/
def convertMode (m : PMode) (img : PImg) : PImg :=
  { img with mode := m, data := .converted m img.data }

/-- `Image.new("RGBA", img.size, (255, 255, 255, 255))`: the white canvas
of line 55. -/
def newWhiteRGBA (w h : ℕ) : PImg :=
  { mode := .RGBA, width := w, height := h, data := .whiteCanvas w h }

/-- `Image.alpha_composite(background, img)`: result has the dimensions
and RGBA mode of the background. -/
def alpha_composite (bg fg : PImg) : PImg :=
  { bg with data := .composited bg.data fg.data }

/-- `is_landscape` (lines 48-49). -/
def is_landscape (img : PImg) : Bool := img.height ≤ img.width

/-- The mode-flattening prelude of `resize_preserve_ratio` (lines 53-58):
alpha and palette modes are composited over a white canvas, everything
else is forced to RGB directly. -/
def flattenToRGB (img : PImg) : PImg :=
  if img.mode = .RGBA ∨ img.mode = .LA ∨ img.mode = .P then
    convertMode .RGB
      (alpha_composite (newWhiteRGBA img.width img.height) (convertMode .RGBA img))
  else convertMode .RGB img

/-- Embedding of `resize_preserve_ratio` (lines 52-71): flatten the mode,
compute the bounded dimensions in binary64 arithmetic, and resize. -/
def resizePreserveAspect (img : PImg) (maxSize : ℕ) : PImg :=
  let img2 := flattenToRGB img
  let wh := resizeDims img2.width img2.height maxSize
  { mode := img2.mode, width := wh.1, height := wh.2,
    data := .resized wh.1 wh.2 img2.data }

lemma flattenToRGB_width (img : PImg) : (flattenToRGB img).width = img.width := by
  unfold flattenToRGB convertMode alpha_composite newWhiteRGBA
  split <;> rfl

lemma flattenToRGB_height (img : PImg) : (flattenToRGB img).height = img.height := by
  unfold flattenToRGB convertMode alpha_composite newWhiteRGBA
  split <;> rfl

/-- C1 counterexample: a 13 by 13 image.  The exact rational floor of
13 * 3333 / 13 is 3333, but the binary64 evaluation
`int(13 * (3333 / 13))` yields 3332, so the resized height is 3332. -/
theorem resize_ratio_claim_false :
    (resizePreserveAspect ⟨.RGB, 13, 13, .srcData 0⟩ TARGET_SIZE).width = 3333 ∧
    (resizePreserveAspect ⟨.RGB, 13, 13, .srcData 0⟩ TARGET_SIZE).height = 3332 ∧
    13 * 3333 / 13 = 3333 ∧ (3332 : ℕ) ≠ 3333 := by
  refine ⟨by decide, by decide, by decide, by decide⟩

lemma resizeAspect_width (img : PImg) (m : ℕ) :
    (resizePreserveAspect img m).width = (resizeDims img.width img.height m).1 := by
  show (resizeDims (flattenToRGB img).width (flattenToRGB img).height m).1 = _
  rw [flattenToRGB_width, flattenToRGB_height]

lemma resizeAspect_height (img : PImg) (m : ℕ) :
    (resizePreserveAspect img m).height = (resizeDims img.width img.height m).2 := by
  show (resizeDims (flattenToRGB img).width (flattenToRGB img).height m).2 = _
  rw [flattenToRGB_width, flattenToRGB_height]

set_option maxHeartbeats 1000000 in
/-- C1 (amended): for positive dimensions up to 2 ^ 24, the longer side is
pinned to 3333 exactly, and the scaled side is the truncation of the
binary64 evaluation of `other * (3333 / longer)`, which lies within one of
the exact rational floor (and can differ from it, as the counterexample
shows). -/
theorem resize_dims_within_one (img : PImg)
    (hw : 1 ≤ img.width) (hh : 1 ≤ img.height)
    (hwB : img.width ≤ 2 ^ 24) (hhB : img.height ≤ 2 ^ 24) :
    (img.height ≤ img.width →
      (resizePreserveAspect img TARGET_SIZE).width = 3333 ∧
      ((img.height * 3333 / img.width : ℕ) : ℤ) - 1
        ≤ ((resizePreserveAspect img TARGET_SIZE).height : ℤ) ∧
      ((resizePreserveAspect img TARGET_SIZE).height : ℤ)
        ≤ ((img.height * 3333 / img.width : ℕ) : ℤ) + 1) ∧
    (img.width < img.height →
      (resizePreserveAspect img TARGET_SIZE).height = 3333 ∧
      ((img.width * 3333 / img.height : ℕ) : ℤ) - 1
        ≤ ((resizePreserveAspect img TARGET_SIZE).width : ℤ) ∧
      ((resizePreserveAspect img TARGET_SIZE).width : ℤ)
        ≤ ((img.width * 3333 / img.height : ℕ) : ℤ) + 1) := by
  set w := img.width with hwdef
  set h := img.height with hhdef
  rw [resizeAspect_width, resizeAspect_height]
  constructor
  · intro hle
    have hbr : resizeDims w h TARGET_SIZE = (3333, scaledDim 3333 w h) := by
      unfold resizeDims TARGET_SIZE
      rw [if_pos hle]
    rw [hbr]
    have hsmall : (h : ℚ) * (3333 : ℕ) / (w : ℕ) ≤ 2 ^ 50 := by
      push_cast
      have h1 : (h : ℚ) * 3333 / w ≤ (h : ℚ) * 3333 := by
        apply div_le_self (by positivity)
        exact_mod_cast hw
      have h2 : (h : ℚ) * 3333 ≤ 2 ^ 24 * 3333 :=
        mul_le_mul_of_nonneg_right (by exact_mod_cast hhB) (by norm_num)
      have h3 : (2 : ℚ) ^ 24 * 3333 ≤ 2 ^ 50 := by norm_num
      linarith
    obtain ⟨hb1, hb2⟩ := scaledDim_bounds 3333 w h (by norm_num) hw hh hsmall
    exact ⟨rfl, hb1, hb2⟩
  · intro hlt
    have hbr : resizeDims w h TARGET_SIZE = (scaledDim 3333 h w, 3333) := by
      unfold resizeDims TARGET_SIZE
      rw [if_neg (by omega)]
    rw [hbr]
    have hsmall : (w : ℚ) * (3333 : ℕ) / (h : ℕ) ≤ 2 ^ 50 := by
      push_cast
      have h1 : (w : ℚ) * 3333 / h ≤ (w : ℚ) * 3333 := by
        apply div_le_self (by positivity)
        exact_mod_cast hh
      have h2 : (w : ℚ) * 3333 ≤ 2 ^ 24 * 3333 :=
        mul_le_mul_of_nonneg_right (by exact_mod_cast hwB) (by norm_num)
      have h3 : (2 : ℚ) ^ 24 * 3333 ≤ 2 ^ 50 := by norm_num
      linarith
    obtain ⟨hb1, hb2⟩ := scaledDim_bounds 3333 h w (by norm_num) hh hw hsmall
    exact ⟨rfl, hb1, hb2⟩

/-- Witness for the amended C1 theorem at a concrete 4 by 3 landscape
image: 3 * 3333 / 4 = 2499 (floor), and the computed height is within one
of it. -/
theorem resize_dims_within_one_witness :
    (1 ≤ (4 : ℕ) ∧ 1 ≤ (3 : ℕ) ∧ (4 : ℕ) ≤ 2 ^ 24 ∧ (3 : ℕ) ≤ 2 ^ 24 ∧ (3 : ℕ) ≤ 4) ∧
    ((resizePreserveAspect ⟨.RGB, 4, 3, .srcData 0⟩ TARGET_SIZE).width = 3333 ∧
      ((3 * 3333 / 4 : ℕ) : ℤ) - 1
        ≤ ((resizePreserveAspect ⟨.RGB, 4, 3, .srcData 0⟩ TARGET_SIZE).height : ℤ) ∧
      ((resizePreserveAspect ⟨.RGB, 4, 3, .srcData 0⟩ TARGET_SIZE).height : ℤ)
        ≤ ((3 * 3333 / 4 : ℕ) : ℤ) + 1) :=
  ⟨⟨by decide, by decide, by decide, by decide, by decide⟩,
    (resize_dims_within_one ⟨.RGB, 4, 3, .srcData 0⟩ (by decide) (by decide)
      (by decide) (by decide)).1 (by decide)⟩

/-- Whether a Pillow mode carries an alpha channel. -/
def modeHasAlpha : PMode → Bool
  | .RGBA => true
  | .LA => true
  | _ => false

/-- C9 (confirmed): every image is forced to the 3-channel RGB mode
before resizing; the alpha and palette modes RGBA, LA and P are first
converted to RGBA and composited over a white RGBA canvas of identical
dimensions, every other mode is converted to RGB directly, and the final
image mode carries no alpha channel. -/
theorem resize_converts_to_opaque_rgb (img : PImg) (m : ℕ) :
    (resizePreserveAspect img m).mode = PMode.RGB ∧
    modeHasAlpha (resizePreserveAspect img m).mode = false ∧
    ((img.mode = PMode.RGBA ∨ img.mode = PMode.LA ∨ img.mode = PMode.P) →
      flattenToRGB img = convertMode .RGB
        (alpha_composite (newWhiteRGBA img.width img.height)
          (convertMode .RGBA img)) ∧
      (newWhiteRGBA img.width img.height).width = img.width ∧
      (newWhiteRGBA img.width img.height).height = img.height) ∧
    (¬(img.mode = PMode.RGBA ∨ img.mode = PMode.LA ∨ img.mode = PMode.P) →
      flattenToRGB img = convertMode .RGB img) := by
  have hmode : (resizePreserveAspect img m).mode = (flattenToRGB img).mode := rfl
  have hflat : (flattenToRGB img).mode = PMode.RGB := by
    unfold flattenToRGB convertMode alpha_composite
    split <;> rfl
  refine ⟨hmode.trans hflat, ?_, ?_, ?_⟩
  · rw [hmode.trans hflat]
    rfl
  · intro h
    unfold flattenToRGB
    rw [if_pos h]
    exact ⟨rfl, rfl, rfl⟩
  · intro h
    unfold flattenToRGB
    rw [if_neg h]

/-- Witness for the C9 theorem at a concrete RGBA image (alpha branch)
and a concrete RGB image (direct branch). -/
theorem resize_converts_to_opaque_rgb_witness :
    (resizePreserveAspect ⟨.RGBA, 2, 3, .srcData 1⟩ 3333).mode = PMode.RGB ∧
    flattenToRGB ⟨.RGBA, 2, 3, .srcData 1⟩ = convertMode .RGB
      (alpha_composite (newWhiteRGBA 2 3) (convertMode .RGBA ⟨.RGBA, 2, 3, .srcData 1⟩)) ∧
    flattenToRGB ⟨.RGB, 2, 3, .srcData 1⟩ = convertMode .RGB ⟨.RGB, 2, 3, .srcData 1⟩ :=
  ⟨(resize_converts_to_opaque_rgb ⟨.RGBA, 2, 3, .srcData 1⟩ 3333).1,
    ((resize_converts_to_opaque_rgb ⟨.RGBA, 2, 3, .srcData 1⟩ 3333).2.2.1 (by decide)).1,
    (resize_converts_to_opaque_rgb ⟨.RGB, 2, 3, .srcData 1⟩ 3333).2.2.2 (by decide)⟩

/-! ## Path names: `pathlib` stem and `with_suffix` semantics.
Only the final name component matters for the claims; directories are
joined as plain strings with a slash. -/

/-- Length of the stem of a file name, per `pathlib`: the suffix starts
at the last dot provided that dot is neither the first nor the last
character; otherwise there is no suffix and the stem is the whole name.
With `j` the dot position counted from the end, the pathlib condition
`0 < i < len - 1` on the dot position `i = len - 1 - j` becomes
`0 < j and j < len - 1`. -/
def splitIdx (name : String) : ℕ :=
  match (name.toList.reverse).findIdx? (fun c => c = '.') with
  | some j =>
    if 0 < j ∧ j < name.toList.length - 1 then name.toList.length - 1 - j
    else name.toList.length
  | none => name.toList.length

/-- `PurePath.stem`: the final name without its suffix. -/
def pyStem (name : String) : String := String.mk (name.toList.take (splitIdx name))

/-- `PurePath.suffix`. -/
def pySuffix (name : String) : String := String.mk (name.toList.drop (splitIdx name))

/-- `PurePath.with_suffix(suffix)` applied to a name: the old suffix (if
any) is removed and the new one appended.  The separator and validity
checks of pathlib are omitted; the script only passes valid literal
suffixes. -/
def pyWithSuffix (name suffix : String) : String := pyStem name ++ suffix

/-- Joining a directory and a name (the `/` operator of pathlib). -/
def joinPath (dir name : String) : String := dir ++ "/" ++ name

/-- Full output path for a given directory, stem and suffix, as produced
by `base_out.with_suffix(ext)` for `base_out = target_dir / stem`. -/
def outPath (dir stem suffix : String) : String := joinPath dir (pyWithSuffix stem suffix)

lemma pyWithSuffix_of_no_suffix {s : String} (h : pySuffix s = "") (ext : String) :
    pyWithSuffix s ext = s ++ ext := by
  have hd : s.toList.drop (splitIdx s) = [] := congrArg String.toList h
  have hge : s.toList.length ≤ splitIdx s := by
    have hlen := congrArg List.length hd
    rw [List.length_drop] at hlen
    simp only [List.length_nil] at hlen
    omega
  unfold pyWithSuffix pyStem
  rw [List.take_of_length_le hge]
  rfl

lemma pyWithSuffix_ne_of_length_ne {stem a b : String}
    (h : a.length ≠ b.length) : pyWithSuffix stem a ≠ pyWithSuffix stem b := by
  unfold pyWithSuffix
  intro he
  apply h
  have hlen := congrArg String.length he
  simp only [String.length_append] at hlen
  omega

lemma outPath_ne_of_length_ne {dir stem : String} {a b : String}
    (h : a.length ≠ b.length) : outPath dir stem a ≠ outPath dir stem b := by
  unfold outPath joinPath pyWithSuffix
  intro he
  have hlen := congrArg String.length he
  simp only [String.length_append] at hlen
  exact h (by omega)

/-! ## Effect model for the orchestrator (`process_one`, `main`,
lines 114-228).  File and console effects are modelled by a `World`
record threaded explicitly; the behavior of the external services
(decoder, TinyPNG, encoders) is an `Env` of oracles fixed for the run.
A Python exception is the `exn` constructor carrying the world as
mutated so far, mirroring that state changes before a raise persist. -/

/-- Observable state: files on disk, created directories, stdout and
stderr lines. -/
structure World where
  files : List String
  dirs : List String
  out : List String
  err : List String
deriving DecidableEq

/-- Result of a Python block that can raise: either a value or an
exception message, in both cases with the world as left behind. -/
inductive PyRes (α : Type) where
  | ok (w : World) (a : α)
  | exn (w : World) (msg : String)
deriving DecidableEq

/-- One discovered source file: full path, final name component, and the
relative parent directory (empty for a top-level file). -/
structure DiscFile where
  path : String
  name : String
  relParent : String
deriving DecidableEq

/-- Behavior of everything outside the script for one run: the two
module probes, the environment key, the input-directory check, the
discovery result, and per-path outcomes of decode, remote compression
and encode. -/
structure Env where
  avifSupported : Bool
  tinifyAvailable : Bool
  tinifyKey : Option String
  inputDirExists : Bool
  discovered : List DiscFile
  decodeResult : String → Option PImg
  tinifyFails : String → Bool
  encodeFails : String → Bool

/-- Parsed command-line arguments (lines 175-183). -/
structure Args where
  input_dir : String
  out : String
  recursive : Bool
  no_rename : Bool
  tinypng : Bool
  quality : ℕ
  keep_structure : Bool
deriving DecidableEq

/-- `img.save(p)`: the file appears on disk (content is not tracked). -/
def writeFile (w : World) (p : String) : World :=
  { w with files := if p ∈ w.files then w.files else w.files ++ [p] }

/-- `Path.unlink(missing_ok=...)`: `none` models a raised
`FileNotFoundError`. -/
def pyUnlink (w : World) (p : String) (missingOk : Bool) : Option World :=
  if p ∈ w.files then some { w with files := w.files.erase p }
  else if missingOk then some w else none

/-- Total form of `unlink(missing_ok=True)`, which never raises. -/
def unlinkMT (w : World) (p : String) : World :=
  { w with files := w.files.erase p }

/-- `ensure_dir` (lines 74-75): `p.mkdir(parents=True, exist_ok=True)`. -/
def ensure_dir (w : World) (p : String) : World :=
  { w with dirs := if p ∈ w.dirs then w.dirs else w.dirs ++ [p] }

/-- Append a stdout line. -/
def putOut (w : World) (s : String) : World := { w with out := w.out ++ [s] }

/-- Append a stderr line. -/
def putErr (w : World) (s : String) : World := { w with err := w.err ++ [s] }

/-- Python truthiness test of the key: `not key` holds for a missing key
and for an empty string. -/
def pyFalsy : Option String → Bool
  | none => true
  | some s => s.isEmpty

/-- The `target_dir` computation of lines 128-129: the relative parent is
appended only with `--keep-structure`; a top-level file has relative
parent `.` which joins to the output directory itself. -/
def targetDir (a : Args) (f : DiscFile) : String :=
  if a.keep_structure && !(f.relParent == "") then a.out ++ "/" ++ f.relParent else a.out

/-- The stem resolution of line 133: the original stem with `--no-rename`,
the sanitized stem otherwise. -/
def resolvedStem (a : Args) (f : DiscFile) : String :=
  if a.no_rename then pyStem f.name else sanitize_filename (pyStem f.name)

/-- Embedding of `save_formats_from_image` (lines 94-111): write the JPEG,
then the WebP, then the AVIF only when the startup capability probe
succeeded, and return the format-to-path mapping of the files written.
An encoder failure raises, keeping the files already written. -/
def save_formats_from_image (env : Env) (img : PImg) (tdir stem : String)
    (quality : ℕ) (w : World) : PyRes (List (String × String)) :=
  if env.encodeFails (outPath tdir stem ".jpg") then
    .exn w ("encode failed " ++ outPath tdir stem ".jpg")
  else if env.encodeFails (outPath tdir stem ".webp") then
    .exn (writeFile w (outPath tdir stem ".jpg"))
      ("encode failed " ++ outPath tdir stem ".webp")
  else if env.avifSupported then
    if env.encodeFails (outPath tdir stem ".avif") then
      .exn (writeFile (writeFile w (outPath tdir stem ".jpg")) (outPath tdir stem ".webp"))
        ("encode failed " ++ outPath tdir stem ".avif")
    else
      .ok (writeFile (writeFile (writeFile w (outPath tdir stem ".jpg"))
            (outPath tdir stem ".webp")) (outPath tdir stem ".avif"))
        [("jpg", outPath tdir stem ".jpg"), ("webp", outPath tdir stem ".webp"),
          ("avif", outPath tdir stem ".avif")]
  else
    .ok (writeFile (writeFile w (outPath tdir stem ".jpg")) (outPath tdir stem ".webp"))
      [("jpg", outPath tdir stem ".jpg"), ("webp", outPath tdir stem ".webp")]

/-- The `try` body of `process_one` (lines 123-156): decode, resize,
ensure the target directory, resolve the stem, optionally run the
TinyPNG round trip, and emit the output formats.  The success value is
the resolved stem, the orientation label and the written mapping. -/
def pipelineOne (env : Env) (a : Args) (f : DiscFile) (w : World) :
    PyRes (String × String × List (String × String)) :=
  match env.decodeResult f.path with
  | none => .exn w "cannot identify image file"
  | some im =>
    let orientation := if is_landscape im then "landscape" else "portrait"
    let tdir := targetDir a f
    let w1 := ensure_dir w tdir
    let stem := resolvedStem a f
    if a.tinypng then
      if env.encodeFails (outPath tdir stem ".tmp.png") then
        .exn w1 ("encode failed " ++ outPath tdir stem ".tmp.png")
      else
        let w2 := writeFile w1 (outPath tdir stem ".tmp.png")
        if !env.tinifyAvailable then .exn w2 "module tinify not installed"
        else if pyFalsy env.tinifyKey then .exn w2 "TINIFY_KEY missing"
        else if env.tinifyFails (outPath tdir stem ".tmp.png") then
          .exn w2 "tinify compression error"
        else
          let w3 := writeFile w2 (outPath tdir stem ".tmp_compressed.png")
          let w4 := unlinkMT w3 (outPath tdir stem ".tmp.png")
          match env.decodeResult (outPath tdir stem ".tmp_compressed.png") with
          | none => .exn w4 "cannot identify compressed image"
          | some cim =>
            match save_formats_from_image env (convertMode .RGB cim) tdir stem
                a.quality w4 with
            | .exn w5 msg => .exn w5 msg
            | .ok w5 written =>
              .ok (unlinkMT w5 (outPath tdir stem ".tmp_compressed.png"))
                (stem, orientation, written)
    else
      match save_formats_from_image env (resizePreserveAspect im TARGET_SIZE) tdir
          stem a.quality w1 with
      | .exn w5 msg => .exn w5 msg
      | .ok w5 written => .ok w5 (stem, orientation, written)

/-- The success line of line 155. -/
def okLine (srcName stem orientation : String)
    (written : List (String × String)) : String :=
  "[OK] " ++ srcName ++ " -> " ++ stem ++ " (" ++ orientation ++ ") | "
    ++ String.intercalate ", " (written.map (fun pr => pr.2))

/-- The per-file error line of line 159, tagged with the source path. -/
def errLine (srcPath msg : String) : String := "[ERR] " ++ srcPath ++ ": " ++ msg

/-- Embedding of `process_one` (lines 114-159): run the pipeline inside a
`try`; on success print the summary line to stdout, on any exception
print the tagged error line to stderr and return normally. -/
def process_one (env : Env) (a : Args) (f : DiscFile) (w : World) : World :=
  match pipelineOne env a f w with
  | .ok w2 r => putOut w2 (okLine f.name r.1 r.2.1 r.2.2)
  | .exn w2 msg => putErr w2 (errLine f.path msg)

/-- Embedding of `main` (lines 174-228): create the output directory,
run the three fatal pre-batch checks in order (`sys.exit(1)` is the
returned exit code 1), report AVIF unavailability, handle an empty
discovery result (exit 0), and otherwise fold `process_one` over the
discovered files (falling off the end gives exit 0). -/
def mainEntry (env : Env) (a : Args) (w : World) : World × ℕ :=
  let w1 := ensure_dir w a.out
  if a.tinypng && !env.tinifyAvailable then
    (putErr w1 "Erreur: tinify pas installe", 1)
  else if a.tinypng && pyFalsy env.tinifyKey then
    (putErr w1 "Erreur: TINIFY_KEY manquant", 1)
  else if !env.inputDirExists then
    (putErr w1 "Erreur: dossier introuvable", 1)
  else
    let w2 := if !env.avifSupported then putOut w1 "[INFO] AVIF non disponible" else w1
    if env.discovered.isEmpty then (putOut w2 "Aucune image trouvee", 0)
    else (env.discovered.foldl (fun wacc f => process_one env a f wacc) w2, 0)

lemma mem_writeFile_iff {w : World} {p q : String} :
    p ∈ (writeFile w q).files ↔ p ∈ w.files ∨ p = q := by
  unfold writeFile
  by_cases h : q ∈ w.files
  · rw [if_pos h]
    constructor
    · exact Or.inl
    · rintro (hp | rfl)
      · exact hp
      · exact h
  · rw [if_neg h]
    simp [List.mem_append]

lemma mem_writeFile_self (w : World) (q : String) : q ∈ (writeFile w q).files :=
  mem_writeFile_iff.mpr (Or.inr rfl)

lemma writeFile_out (w : World) (q : String) : (writeFile w q).out = w.out := rfl

lemma writeFile_err (w : World) (q : String) : (writeFile w q).err = w.err := rfl

lemma mem_ensure_dir (w : World) (p : String) : p ∈ (ensure_dir w p).dirs := by
  unfold ensure_dir
  by_cases h : p ∈ w.dirs
  · rw [if_pos h]; exact h
  · rw [if_neg h]; simp

/-- C10 (confirmed): `ensure_dir(out_dir)` runs at line 187, before the
input-directory existence check at line 206, so a run that fails with
exit code 1 because the input directory is missing still creates the
output directory, prints the diagnostic on stderr and touches nothing
else. -/
theorem out_dir_created_on_missing_input (env : Env) (a : Args) (w : World)
    (hntp : a.tinypng = false) (hin : env.inputDirExists = false) :
    (mainEntry env a w).2 = 1 ∧ a.out ∈ (mainEntry env a w).1.dirs ∧
    (mainEntry env a w).1.err = w.err ++ ["Erreur: dossier introuvable"] ∧
    (mainEntry env a w).1.files = w.files ∧ (mainEntry env a w).1.out = w.out := by
  have hmain : mainEntry env a w
      = (putErr (ensure_dir w a.out) "Erreur: dossier introuvable", 1) := by
    unfold mainEntry
    rw [hntp, hin]
    simp
  rw [hmain]
  refine ⟨rfl, ?_, rfl, rfl, rfl⟩
  exact mem_ensure_dir w a.out

/-- Witness for C10 at a concrete argument vector and empty world. -/
theorem out_dir_created_on_missing_input_witness :
    (mainEntry
        { avifSupported := true, tinifyAvailable := false, tinifyKey := none,
          inputDirExists := false, discovered := [],
          decodeResult := fun _ => none, tinifyFails := fun _ => false,
          encodeFails := fun _ => false }
        { input_dir := "missing", out := "outdir", recursive := false,
          no_rename := false, tinypng := false, quality := 85,
          keep_structure := false }
        ⟨[], [], [], []⟩).2 = 1 ∧
    "outdir" ∈ (mainEntry
        { avifSupported := true, tinifyAvailable := false, tinifyKey := none,
          inputDirExists := false, discovered := [],
          decodeResult := fun _ => none, tinifyFails := fun _ => false,
          encodeFails := fun _ => false }
        { input_dir := "missing", out := "outdir", recursive := false,
          no_rename := false, tinypng := false, quality := 85,
          keep_structure := false }
        ⟨[], [], [], []⟩).1.dirs := by
  have h := out_dir_created_on_missing_input
    { avifSupported := true, tinifyAvailable := false, tinifyKey := none,
      inputDirExists := false, discovered := [],
      decodeResult := fun _ => none, tinifyFails := fun _ => false,
      encodeFails := fun _ => false }
    { input_dir := "missing", out := "outdir", recursive := false,
      no_rename := false, tinypng := false, quality := 85,
      keep_structure := false }
    ⟨[], [], [], []⟩ rfl rfl
  exact ⟨h.1, h.2.1⟩

/-- C7 (confirmed): the run exits with code 1 exactly when one of the
three fatal conditions holds (TinyPNG requested without the tinify
module, TinyPNG requested without a usable key, missing input
directory); in every such case the resulting world is the initial world
with only the output directory ensured and one diagnostic line on
stderr, so no file was processed; and when the checks pass but no image
is found, the run exits 0 after an informational stdout line. -/
theorem fatal_prebatch_checks (env : Env) (a : Args) (w : World) :
    ((mainEntry env a w).2 = 1 ↔
      (a.tinypng && !env.tinifyAvailable) = true ∨
      (a.tinypng && pyFalsy env.tinifyKey) = true ∨
      env.inputDirExists = false) ∧
    ((mainEntry env a w).2 = 1 →
      ∃ msg, (mainEntry env a w).1 = putErr (ensure_dir w a.out) msg) ∧
    ((a.tinypng && !env.tinifyAvailable) = false →
      (a.tinypng && pyFalsy env.tinifyKey) = false →
      env.inputDirExists = true → env.discovered = [] →
      mainEntry env a w =
        (putOut (if !env.avifSupported then
            putOut (ensure_dir w a.out) "[INFO] AVIF non disponible"
          else ensure_dir w a.out) "Aucune image trouvee", 0)) := by
  by_cases h1 : (a.tinypng && !env.tinifyAvailable) = true
  · have hmain : mainEntry env a w
        = (putErr (ensure_dir w a.out) "Erreur: tinify pas installe", 1) := by
      unfold mainEntry
      rw [h1]
      simp
    rw [hmain]
    refine ⟨by simp [h1], fun _ => ⟨_, rfl⟩, ?_⟩
    intro hc
    rw [hc] at h1
    cases h1
  · by_cases h2 : (a.tinypng && pyFalsy env.tinifyKey) = true
    · have hmain : mainEntry env a w
          = (putErr (ensure_dir w a.out) "Erreur: TINIFY_KEY manquant", 1) := by
        unfold mainEntry
        rw [h2, Bool.not_eq_true] at *
        rw [h1, h2]
        simp
      rw [hmain]
      refine ⟨by simp [h2], fun _ => ⟨_, rfl⟩, ?_⟩
      intro _ hc
      rw [hc] at h2
      cases h2
    · by_cases h3 : env.inputDirExists = false
      · have hmain : mainEntry env a w
            = (putErr (ensure_dir w a.out) "Erreur: dossier introuvable", 1) := by
          unfold mainEntry
          rw [Bool.not_eq_true] at h1 h2
          rw [h1, h2, h3]
          simp
        rw [hmain]
        refine ⟨by simp [h3], fun _ => ⟨_, rfl⟩, ?_⟩
        intro _ _ hc
        rw [hc] at h3
        cases h3
      · rw [Bool.not_eq_true] at h1 h2
        rw [Bool.not_eq_false] at h3
        have hbranch : mainEntry env a w =
            (let w2 := if !env.avifSupported then
                putOut (ensure_dir w a.out) "[INFO] AVIF non disponible"
              else ensure_dir w a.out
            if env.discovered.isEmpty then (putOut w2 "Aucune image trouvee", 0)
            else (env.discovered.foldl (fun wacc f => process_one env a f wacc) w2, 0)) := by
          unfold mainEntry
          rw [h1, h2, h3]
          simp
        constructor
        · rw [hbranch]
          simp only [h1, h2, h3]
          constructor
          · intro hx
            by_cases hemp : env.discovered.isEmpty
            · rw [if_pos hemp] at hx
              cases hx
            · rw [if_neg hemp] at hx
              cases hx
          · rintro (hx | hx | hx)
            · cases hx
            · cases hx
            · exact absurd hx (by decide)
        constructor
        · intro hx
          exfalso
          rw [hbranch] at hx
          by_cases hemp : env.discovered.isEmpty
          · rw [if_pos hemp] at hx
            cases hx
          · rw [if_neg hemp] at hx
            cases hx
        · intro _ _ _ hd
          rw [hbranch]
          have : env.discovered.isEmpty = true := by rw [hd]; rfl
          rw [this]
          rfl

/-- Witness for C7: a run requesting TinyPNG without the module exits 1,
and a run with no discovered images exits 0 with the informational line. -/
theorem fatal_prebatch_checks_witness :
    (mainEntry
        { avifSupported := true, tinifyAvailable := false, tinifyKey := none,
          inputDirExists := true, discovered := [],
          decodeResult := fun _ => none, tinifyFails := fun _ => false,
          encodeFails := fun _ => false }
        { input_dir := "d", out := "o", recursive := false, no_rename := false,
          tinypng := true, quality := 85, keep_structure := false }
        ⟨[], [], [], []⟩).2 = 1 ∧
    mainEntry
        { avifSupported := true, tinifyAvailable := true, tinifyKey := some "k",
          inputDirExists := true, discovered := [],
          decodeResult := fun _ => none, tinifyFails := fun _ => false,
          encodeFails := fun _ => false }
        { input_dir := "d", out := "o", recursive := false, no_rename := false,
          tinypng := false, quality := 85, keep_structure := false }
        ⟨[], [], [], []⟩
      = (putOut (ensure_dir ⟨[], [], [], []⟩ "o") "Aucune image trouvee", 0) := by
  constructor
  · exact (fatal_prebatch_checks
      { avifSupported := true, tinifyAvailable := false, tinifyKey := none,
        inputDirExists := true, discovered := [],
        decodeResult := fun _ => none, tinifyFails := fun _ => false,
        encodeFails := fun _ => false }
      { input_dir := "d", out := "o", recursive := false, no_rename := false,
        tinypng := true, quality := 85, keep_structure := false }
      ⟨[], [], [], []⟩).1.mpr (Or.inl rfl)
  · have h := (fatal_prebatch_checks
      { avifSupported := true, tinifyAvailable := true, tinifyKey := some "k",
        inputDirExists := true, discovered := [],
        decodeResult := fun _ => none, tinifyFails := fun _ => false,
        encodeFails := fun _ => false }
      { input_dir := "d", out := "o", recursive := false, no_rename := false,
        tinypng := false, quality := 85, keep_structure := false }
      ⟨[], [], [], []⟩).2.2 rfl rfl rfl rfl
    rw [h]
    rfl

/-- Successful-emit shape lemma: with working encoders the emit step
returns `ok` with the exact mapping and file effects. -/
lemma save_formats_ok_shape (env : Env) (img : PImg) (tdir stem : String)
    (q : ℕ) (w : World)
    (hjp : env.encodeFails (outPath tdir stem ".jpg") = false)
    (hwp : env.encodeFails (outPath tdir stem ".webp") = false)
    (hav : env.encodeFails (outPath tdir stem ".avif") = false) :
    ∃ w2 written, save_formats_from_image env img tdir stem q w = .ok w2 written ∧
      ("jpg", outPath tdir stem ".jpg") ∈ written ∧
      ("webp", outPath tdir stem ".webp") ∈ written ∧
      ((("avif", outPath tdir stem ".avif") ∈ written) ↔ env.avifSupported = true) ∧
      written.map (fun pr => pr.1)
        = (["jpg", "webp"] ++ if env.avifSupported then ["avif"] else []) ∧
      (∀ pr ∈ written, pr.2 ∈ w2.files) ∧
      (∀ p ∈ w2.files, p ∈ w.files ∨ p ∈ written.map (fun pr => pr.2)) := by
  unfold save_formats_from_image
  rw [hjp, hwp]
  by_cases havf : env.avifSupported = true
  · rw [havf, hav]
    simp only [Bool.false_eq_true, if_false, if_true]
    refine ⟨_, _, rfl, by simp, by simp, by simp [havf], by simp [havf], ?_, ?_⟩
    · intro pr hpr
      simp only [List.mem_cons, List.mem_singleton] at hpr
      rcases hpr with rfl | rfl | rfl | h
      · simp [mem_writeFile_iff, mem_writeFile_self]
      · simp [mem_writeFile_iff, mem_writeFile_self]
      · exact mem_writeFile_self _ _
      · cases h
    · intro p hp
      rcases mem_writeFile_iff.mp hp with hp | rfl
      · rcases mem_writeFile_iff.mp hp with hp | rfl
        · rcases mem_writeFile_iff.mp hp with hp | rfl
          · exact Or.inl hp
          · simp
        · simp
      · simp
  · rw [Bool.not_eq_true] at havf
    rw [havf]
    simp only [Bool.false_eq_true, if_false]
    refine ⟨_, _, rfl, by simp, by simp, by simp [havf], by simp [havf], ?_, ?_⟩
    · intro pr hpr
      simp only [List.mem_cons, List.mem_singleton] at hpr
      rcases hpr with rfl | rfl | h
      · simp [mem_writeFile_iff, mem_writeFile_self]
      · exact mem_writeFile_self _ _
      · cases h
    · intro p hp
      rcases mem_writeFile_iff.mp hp with hp | rfl
      · rcases mem_writeFile_iff.mp hp with hp | rfl
        · exact Or.inl hp
        · simp
      · simp

/-- C5 (confirmed): with working encoders, Emit returns the mapping that
contains exactly the formats written: `jpg` and `webp` always, `avif`
exactly when the startup capability probe succeeded; every mapped path
is on disk afterwards, and nothing else was added to disk. -/
theorem emit_formats_exact (env : Env) (img : PImg) (tdir stem : String)
    (q : ℕ) (w : World)
    (hjp : env.encodeFails (outPath tdir stem ".jpg") = false)
    (hwp : env.encodeFails (outPath tdir stem ".webp") = false)
    (hav : env.encodeFails (outPath tdir stem ".avif") = false) :
    ∃ w2 written, save_formats_from_image env img tdir stem q w = .ok w2 written ∧
      ("jpg", outPath tdir stem ".jpg") ∈ written ∧
      ("webp", outPath tdir stem ".webp") ∈ written ∧
      ((("avif", outPath tdir stem ".avif") ∈ written) ↔ env.avifSupported = true) ∧
      written.map (fun pr => pr.1)
        = (["jpg", "webp"] ++ if env.avifSupported then ["avif"] else []) ∧
      (∀ pr ∈ written, pr.2 ∈ w2.files) ∧
      (∀ p ∈ w2.files, p ∈ w.files ∨ p ∈ written.map (fun pr => pr.2)) :=
  save_formats_ok_shape env img tdir stem q w hjp hwp hav

/-- Witness for C5 at a concrete environment with AVIF available. -/
theorem emit_formats_exact_witness :
    ∃ w2 written,
      save_formats_from_image
        { avifSupported := true, tinifyAvailable := true, tinifyKey := some "k",
          inputDirExists := true, discovered := [],
          decodeResult := fun _ => none, tinifyFails := fun _ => false,
          encodeFails := fun _ => false }
        ⟨.RGB, 1, 1, .srcData 0⟩ "o" "pic" 85 ⟨[], [], [], []⟩ = .ok w2 written ∧
      ("jpg", outPath "o" "pic" ".jpg") ∈ written ∧
      ("webp", outPath "o" "pic" ".webp") ∈ written ∧
      ("avif", outPath "o" "pic" ".avif") ∈ written := by
  obtain ⟨w2, written, heq, hj, hw, ha, _⟩ := emit_formats_exact
    { avifSupported := true, tinifyAvailable := true, tinifyKey := some "k",
      inputDirExists := true, discovered := [],
      decodeResult := fun _ => none, tinifyFails := fun _ => false,
      encodeFails := fun _ => false }
    ⟨.RGB, 1, 1, .srcData 0⟩ "o" "pic" 85 ⟨[], [], [], []⟩ rfl rfl rfl
  exact ⟨w2, written, heq, hj, hw, ha.mpr rfl⟩

lemma resolvedStem_noRename {a : Args} (f : DiscFile) (hnr : a.no_rename = true) :
    resolvedStem a f = pyStem f.name := by
  unfold resolvedStem
  rw [hnr]
  rfl

lemma pipelineOne_noTinify (env : Env) (a : Args) (f : DiscFile) (w : World)
    (im : PImg) (htp : a.tinypng = false)
    (him : env.decodeResult f.path = some im)
    (hjp : env.encodeFails (outPath (targetDir a f) (resolvedStem a f) ".jpg") = false)
    (hwp : env.encodeFails (outPath (targetDir a f) (resolvedStem a f) ".webp") = false)
    (hav : env.encodeFails (outPath (targetDir a f) (resolvedStem a f) ".avif") = false) :
    ∃ w2 written,
      pipelineOne env a f w = .ok w2 (resolvedStem a f,
        (if is_landscape im then "landscape" else "portrait"), written) ∧
      save_formats_from_image env (resizePreserveAspect im TARGET_SIZE) (targetDir a f)
        (resolvedStem a f) a.quality (ensure_dir w (targetDir a f)) = .ok w2 written := by
  obtain ⟨w2, written, heq, -⟩ := save_formats_ok_shape env
    (resizePreserveAspect im TARGET_SIZE) (targetDir a f) (resolvedStem a f)
    a.quality (ensure_dir w (targetDir a f)) hjp hwp hav
  refine ⟨w2, written, ?_, heq⟩
  unfold pipelineOne
  rw [him]
  simp only [htp, Bool.false_eq_true, if_false]
  rw [heq]

/-- C4 counterexample: the claim fails for a stem containing a dot.  With
`--no-rename`, a source file named `my.photo.png` has stem `my.photo`,
but `with_suffix` replaces the dot-suffix of the stem itself, so the
JPEG is emitted at `out/my.jpg` and no file named `out/my.photo.jpg`
exists after the run. -/
theorem noRename_claim_false :
    "out/my.jpg" ∈ (process_one
      { avifSupported := false, tinifyAvailable := false, tinifyKey := none,
        inputDirExists := true, discovered := [⟨"in/my.photo.png", "my.photo.png", ""⟩],
        decodeResult := fun p => if p = "in/my.photo.png"
          then some ⟨.RGB, 1, 1, .srcData 0⟩ else none,
        tinifyFails := fun _ => false, encodeFails := fun _ => false }
      { input_dir := "in", out := "out", recursive := false, no_rename := true,
        tinypng := false, quality := 85, keep_structure := false }
      ⟨"in/my.photo.png", "my.photo.png", ""⟩ ⟨[], [], [], []⟩).files ∧
    "out/my.photo.jpg" ∉ (process_one
      { avifSupported := false, tinifyAvailable := false, tinifyKey := none,
        inputDirExists := true, discovered := [⟨"in/my.photo.png", "my.photo.png", ""⟩],
        decodeResult := fun p => if p = "in/my.photo.png"
          then some ⟨.RGB, 1, 1, .srcData 0⟩ else none,
        tinifyFails := fun _ => false, encodeFails := fun _ => false }
      { input_dir := "in", out := "out", recursive := false, no_rename := true,
        tinypng := false, quality := 85, keep_structure := false }
      ⟨"in/my.photo.png", "my.photo.png", ""⟩ ⟨[], [], [], []⟩).files := by
  constructor
  · decide
  · decide

/-- C4 (amended): with `--no-rename` and a successful run, every emitted
file is written at `target_dir / with_suffix(stem, ext)`, that is, the
original stem with its own trailing dot-suffix (if any) replaced by the
format extension; when the original stem contains no dot-suffix this is
exactly the original stem followed by the format extension, as the claim
states. -/
theorem noRename_output_names (env : Env) (a : Args) (f : DiscFile) (w : World)
    (im : PImg) (hnr : a.no_rename = true) (htp : a.tinypng = false)
    (him : env.decodeResult f.path = some im)
    (hjp : env.encodeFails (outPath (targetDir a f) (pyStem f.name) ".jpg") = false)
    (hwp : env.encodeFails (outPath (targetDir a f) (pyStem f.name) ".webp") = false)
    (hav : env.encodeFails (outPath (targetDir a f) (pyStem f.name) ".avif") = false) :
    outPath (targetDir a f) (pyStem f.name) ".jpg" ∈ (process_one env a f w).files ∧
    outPath (targetDir a f) (pyStem f.name) ".webp" ∈ (process_one env a f w).files ∧
    outPath (targetDir a f) (pyStem f.name) ".jpg"
      = joinPath (targetDir a f) (pyWithSuffix (pyStem f.name) ".jpg") ∧
    (pySuffix (pyStem f.name) = "" →
      pyWithSuffix (pyStem f.name) ".jpg" = pyStem f.name ++ ".jpg" ∧
      pyWithSuffix (pyStem f.name) ".webp" = pyStem f.name ++ ".webp") := by
  have hstem := resolvedStem_noRename f hnr
  rw [← hstem] at hjp hwp hav
  obtain ⟨w2, written, hpipe, hsave⟩ :=
    pipelineOne_noTinify env a f w im htp him hjp hwp hav
  obtain ⟨w2x, writtenx, heqx, hjmem, hwmem, -, -, hmem, -⟩ := save_formats_ok_shape env
    (resizePreserveAspect im TARGET_SIZE) (targetDir a f) (resolvedStem a f)
    a.quality (ensure_dir w (targetDir a f)) hjp hwp hav
  rw [hsave] at heqx
  injection heqx with hw2 hwr
  subst hw2 hwr
  have hfiles : (process_one env a f w).files = w2.files := by
    unfold process_one
    rw [hpipe]
    rfl
  rw [hfiles, hstem] at *
  refine ⟨hmem _ hjmem, hmem _ hwmem, rfl, ?_⟩
  intro hsuf
  exact ⟨pyWithSuffix_of_no_suffix hsuf ".jpg", pyWithSuffix_of_no_suffix hsuf ".webp"⟩

/-- Witness for the amended C4 theorem at a concrete dotless stem. -/
theorem noRename_output_names_witness :
    outPath "out" (pyStem "pic.png") ".jpg" ∈ (process_one
      { avifSupported := false, tinifyAvailable := false, tinifyKey := none,
        inputDirExists := true, discovered := [⟨"in/pic.png", "pic.png", ""⟩],
        decodeResult := fun p => if p = "in/pic.png"
          then some ⟨.RGB, 1, 1, .srcData 0⟩ else none,
        tinifyFails := fun _ => false, encodeFails := fun _ => false }
      { input_dir := "in", out := "out", recursive := false, no_rename := true,
        tinypng := false, quality := 85, keep_structure := false }
      ⟨"in/pic.png", "pic.png", ""⟩ ⟨[], [], [], []⟩).files ∧
    pyWithSuffix (pyStem "pic.png") ".jpg" = pyStem "pic.png" ++ ".jpg" := by
  have h := noRename_output_names
    { avifSupported := false, tinifyAvailable := false, tinifyKey := none,
      inputDirExists := true, discovered := [⟨"in/pic.png", "pic.png", ""⟩],
      decodeResult := fun p => if p = "in/pic.png"
        then some ⟨.RGB, 1, 1, .srcData 0⟩ else none,
      tinifyFails := fun _ => false, encodeFails := fun _ => false }
    { input_dir := "in", out := "out", recursive := false, no_rename := true,
      tinypng := false, quality := 85, keep_structure := false }
    ⟨"in/pic.png", "pic.png", ""⟩ ⟨[], [], [], []⟩ ⟨.RGB, 1, 1, .srcData 0⟩
    rfl rfl (by simp) rfl rfl rfl
  have htdir : targetDir
      { input_dir := "in", out := "out", recursive := false, no_rename := true,
        tinypng := false, quality := 85, keep_structure := false }
      ⟨"in/pic.png", "pic.png", ""⟩ = "out" := rfl
  rw [htdir] at h
  exact ⟨h.1, (h.2.2.2 (by decide)).1⟩

lemma count_writeFile_ne {w : World} {q p : String} (h : q ≠ p) :
    (writeFile w q).files.count p = w.files.count p := by
  unfold writeFile
  by_cases hq : q ∈ w.files
  · rw [if_pos hq]
  · rw [if_neg hq]
    rw [List.count_append]
    have : List.count p [q] = 0 := by
      rw [List.count_singleton]
      simp [h, Ne.symm h]
    simp [this]

lemma count_writeFile_self {w : World} {q : String} (h : q ∉ w.files) :
    (writeFile w q).files.count q = 1 := by
  unfold writeFile
  rw [if_neg h, List.count_append]
  rw [List.count_eq_zero.mpr h]
  simp [List.count_singleton]

lemma count_unlinkMT_self (w : World) (q : String) :
    (unlinkMT w q).files.count q = w.files.count q - 1 := by
  unfold unlinkMT
  exact List.count_erase_self q w.files

lemma count_unlinkMT_ne {w : World} {q p : String} (h : q ≠ p) :
    (unlinkMT w q).files.count p = w.files.count p := by
  unfold unlinkMT
  rw [List.count_erase_of_ne (Ne.symm h)]

lemma count_ensure_dir (w : World) (d p : String) :
    (ensure_dir w d).files.count p = w.files.count p := rfl

lemma not_mem_of_count_zero {l : List String} {p : String}
    (h : l.count p = 0) : p ∉ l := List.count_eq_zero.mp h

lemma suffix_lengths_distinct :
    (".tmp.png" : String).length = 8 ∧ (".tmp_compressed.png" : String).length = 19 ∧
    (".jpg" : String).length = 4 ∧ (".webp" : String).length = 5 ∧
    (".avif" : String).length = 5 := by decide

lemma pyUnlink_absent {w : World} {p : String} (h : p ∉ w.files) :
    pyUnlink w p true = some w := by
  unfold pyUnlink
  rw [if_neg h]
  rfl

lemma pyUnlink_eq_unlinkMT (w : World) (p : String) :
    pyUnlink w p true = some (unlinkMT w p) := by
  unfold pyUnlink unlinkMT
  by_cases h : p ∈ w.files
  · rw [if_pos h]
  · rw [if_neg h]
    rw [List.erase_of_not_mem h]
    rfl

lemma save_formats_count {env : Env} {img : PImg} {tdir stem : String}
    {q : ℕ} {w4 w5 : World} {written : List (String × String)} {p : String}
    (hok : save_formats_from_image env img tdir stem q w4 = .ok w5 written)
    (hp1 : outPath tdir stem ".jpg" ≠ p)
    (hp2 : outPath tdir stem ".webp" ≠ p)
    (hp3 : outPath tdir stem ".avif" ≠ p) :
    w5.files.count p = w4.files.count p := by
  unfold save_formats_from_image at hok
  split_ifs at hok <;>
    first
      | exact PyRes.noConfusion hok
      | (injection hok with hw hwr
         subst hw
         rw [count_writeFile_ne hp3, count_writeFile_ne hp2, count_writeFile_ne hp1])
      | (injection hok with hw hwr
         subst hw
         rw [count_writeFile_ne hp2, count_writeFile_ne hp1])

lemma pipelineOne_tinify_success (env : Env) (a : Args) (f : DiscFile) (w : World)
    (im cim : PImg) (htp : a.tinypng = true)
    (him : env.decodeResult f.path = some im)
    (htmp : env.encodeFails (outPath (targetDir a f) (resolvedStem a f) ".tmp.png") = false)
    (hta : env.tinifyAvailable = true)
    (hkey : pyFalsy env.tinifyKey = false)
    (htf : env.tinifyFails (outPath (targetDir a f) (resolvedStem a f) ".tmp.png") = false)
    (hcim : env.decodeResult
      (outPath (targetDir a f) (resolvedStem a f) ".tmp_compressed.png") = some cim)
    (hjp : env.encodeFails (outPath (targetDir a f) (resolvedStem a f) ".jpg") = false)
    (hwp : env.encodeFails (outPath (targetDir a f) (resolvedStem a f) ".webp") = false)
    (hav : env.encodeFails (outPath (targetDir a f) (resolvedStem a f) ".avif") = false) :
    ∃ w5 written,
      save_formats_from_image env (convertMode .RGB cim) (targetDir a f)
        (resolvedStem a f) a.quality
        (unlinkMT (writeFile (writeFile (ensure_dir w (targetDir a f))
            (outPath (targetDir a f) (resolvedStem a f) ".tmp.png"))
          (outPath (targetDir a f) (resolvedStem a f) ".tmp_compressed.png"))
          (outPath (targetDir a f) (resolvedStem a f) ".tmp.png")) = .ok w5 written ∧
      pipelineOne env a f w = .ok
        (unlinkMT w5 (outPath (targetDir a f) (resolvedStem a f) ".tmp_compressed.png"))
        (resolvedStem a f, (if is_landscape im then "landscape" else "portrait"),
          written) := by
  obtain ⟨w5, written, heq, -⟩ := save_formats_ok_shape env (convertMode .RGB cim)
    (targetDir a f) (resolvedStem a f) a.quality
    (unlinkMT (writeFile (writeFile (ensure_dir w (targetDir a f))
        (outPath (targetDir a f) (resolvedStem a f) ".tmp.png"))
      (outPath (targetDir a f) (resolvedStem a f) ".tmp_compressed.png"))
      (outPath (targetDir a f) (resolvedStem a f) ".tmp.png")) hjp hwp hav
  refine ⟨w5, written, heq, ?_⟩
  unfold pipelineOne
  rw [him]
  simp only [htp, htmp, hta, hkey, htf, hcim, heq, Bool.not_true,
    Bool.false_eq_true, if_false, if_true]

/-- C8 (amended): in a successful remote-compression round trip both
temporary PNGs are gone from disk at the end of the file (the
pre-compression PNG is removed right after compression, the compressed
PNG after the format encodes complete), the final formats are present,
and `unlink(missing_ok=True)` never fails, in particular it is a no-op
on an absent file.  (When a later encode raises, the compressed PNG is
not deleted; see the counterexample.) -/
theorem tinypng_cleanup (env : Env) (a : Args) (f : DiscFile) (w : World)
    (im cim : PImg) (htp : a.tinypng = true)
    (him : env.decodeResult f.path = some im)
    (htmp : env.encodeFails (outPath (targetDir a f) (resolvedStem a f) ".tmp.png") = false)
    (hta : env.tinifyAvailable = true)
    (hkey : pyFalsy env.tinifyKey = false)
    (htf : env.tinifyFails (outPath (targetDir a f) (resolvedStem a f) ".tmp.png") = false)
    (hcim : env.decodeResult
      (outPath (targetDir a f) (resolvedStem a f) ".tmp_compressed.png") = some cim)
    (hjp : env.encodeFails (outPath (targetDir a f) (resolvedStem a f) ".jpg") = false)
    (hwp : env.encodeFails (outPath (targetDir a f) (resolvedStem a f) ".webp") = false)
    (hav : env.encodeFails (outPath (targetDir a f) (resolvedStem a f) ".avif") = false)
    (hfresh1 : outPath (targetDir a f) (resolvedStem a f) ".tmp.png" ∉ w.files)
    (hfresh2 : outPath (targetDir a f) (resolvedStem a f) ".tmp_compressed.png" ∉ w.files) :
    outPath (targetDir a f) (resolvedStem a f) ".tmp.png"
      ∉ (process_one env a f w).files ∧
    outPath (targetDir a f) (resolvedStem a f) ".tmp_compressed.png"
      ∉ (process_one env a f w).files ∧
    outPath (targetDir a f) (resolvedStem a f) ".jpg" ∈ (process_one env a f w).files ∧
    outPath (targetDir a f) (resolvedStem a f) ".webp" ∈ (process_one env a f w).files ∧
    (∀ (w0 : World) (p : String), p ∉ w0.files → pyUnlink w0 p true = some w0) ∧
    (∀ (w0 : World) (p : String), pyUnlink w0 p true = some (unlinkMT w0 p)) := by
  obtain ⟨w5, written, hsave, hpipe⟩ :=
    pipelineOne_tinify_success env a f w im cim htp him htmp hta hkey htf hcim hjp hwp hav
  obtain ⟨w5x, writtenx, heqx, hjmem, hwmem, -, -, hmemall, -⟩ := save_formats_ok_shape env
    (convertMode .RGB cim) (targetDir a f) (resolvedStem a f) a.quality
    (unlinkMT (writeFile (writeFile (ensure_dir w (targetDir a f))
        (outPath (targetDir a f) (resolvedStem a f) ".tmp.png"))
      (outPath (targetDir a f) (resolvedStem a f) ".tmp_compressed.png"))
      (outPath (targetDir a f) (resolvedStem a f) ".tmp.png")) hjp hwp hav
  rw [hsave] at heqx
  injection heqx with hw2 hwr
  subst hw2 hwr
  have hne_tc : outPath (targetDir a f) (resolvedStem a f) ".tmp.png"
      ≠ outPath (targetDir a f) (resolvedStem a f) ".tmp_compressed.png" :=
    outPath_ne_of_length_ne (by decide)
  have hne_jt : outPath (targetDir a f) (resolvedStem a f) ".jpg"
      ≠ outPath (targetDir a f) (resolvedStem a f) ".tmp.png" :=
    outPath_ne_of_length_ne (by decide)
  have hne_wt : outPath (targetDir a f) (resolvedStem a f) ".webp"
      ≠ outPath (targetDir a f) (resolvedStem a f) ".tmp.png" :=
    outPath_ne_of_length_ne (by decide)
  have hne_at : outPath (targetDir a f) (resolvedStem a f) ".avif"
      ≠ outPath (targetDir a f) (resolvedStem a f) ".tmp.png" :=
    outPath_ne_of_length_ne (by decide)
  have hne_jc : outPath (targetDir a f) (resolvedStem a f) ".jpg"
      ≠ outPath (targetDir a f) (resolvedStem a f) ".tmp_compressed.png" :=
    outPath_ne_of_length_ne (by decide)
  have hne_wc : outPath (targetDir a f) (resolvedStem a f) ".webp"
      ≠ outPath (targetDir a f) (resolvedStem a f) ".tmp_compressed.png" :=
    outPath_ne_of_length_ne (by decide)
  have hne_ac : outPath (targetDir a f) (resolvedStem a f) ".avif"
      ≠ outPath (targetDir a f) (resolvedStem a f) ".tmp_compressed.png" :=
    outPath_ne_of_length_ne (by decide)
  have hfiles : (process_one env a f w).files
      = (unlinkMT w5 (outPath (targetDir a f) (resolvedStem a f)
          ".tmp_compressed.png")).files := by
    unfold process_one
    rw [hpipe]
    rfl
  have hcount_tmp4 : (unlinkMT (writeFile (writeFile (ensure_dir w (targetDir a f))
      (outPath (targetDir a f) (resolvedStem a f) ".tmp.png"))
      (outPath (targetDir a f) (resolvedStem a f) ".tmp_compressed.png"))
      (outPath (targetDir a f) (resolvedStem a f) ".tmp.png")).files.count
      (outPath (targetDir a f) (resolvedStem a f) ".tmp.png") = 0 := by
    have hfresh1x : outPath (targetDir a f) (resolvedStem a f) ".tmp.png"
        ∉ (ensure_dir w (targetDir a f)).files := hfresh1
    rw [count_unlinkMT_self, count_writeFile_ne hne_tc.symm,
      count_writeFile_self hfresh1x]
  have hcount_cmp4 : (unlinkMT (writeFile (writeFile (ensure_dir w (targetDir a f))
      (outPath (targetDir a f) (resolvedStem a f) ".tmp.png"))
      (outPath (targetDir a f) (resolvedStem a f) ".tmp_compressed.png"))
      (outPath (targetDir a f) (resolvedStem a f) ".tmp.png")).files.count
      (outPath (targetDir a f) (resolvedStem a f) ".tmp_compressed.png") = 1 := by
    rw [count_unlinkMT_ne hne_tc]
    apply count_writeFile_self
    rw [mem_writeFile_iff]
    rintro (hmem | heqq)
    · exact hfresh2 hmem
    · exact hne_tc heqq.symm
  have hw5_tmp : w5.files.count
      (outPath (targetDir a f) (resolvedStem a f) ".tmp.png") = 0 := by
    rw [save_formats_count hsave hne_jt hne_wt hne_at]
    exact hcount_tmp4
  have hw5_cmp : w5.files.count
      (outPath (targetDir a f) (resolvedStem a f) ".tmp_compressed.png") = 1 := by
    rw [save_formats_count hsave hne_jc hne_wc hne_ac]
    exact hcount_cmp4
  refine ⟨?_, ?_, ?_, ?_, fun w0 p h => pyUnlink_absent h,
    fun w0 p => pyUnlink_eq_unlinkMT w0 p⟩
  · rw [hfiles]
    apply not_mem_of_count_zero
    rw [count_unlinkMT_ne hne_tc.symm]
    exact hw5_tmp
  · rw [hfiles]
    apply not_mem_of_count_zero
    rw [count_unlinkMT_self, hw5_cmp]
  · rw [hfiles]
    exact (List.mem_erase_of_ne hne_jc).mpr (hmemall _ hjmem)
  · rw [hfiles]
    exact (List.mem_erase_of_ne hne_wc).mpr (hmemall _ hwmem)

/-- Witness for the amended C8 theorem at a concrete successful TinyPNG
run: both temporary PNGs are absent afterwards and the outputs exist. -/
theorem tinypng_cleanup_witness :
    "out/pic.tmp.png" ∉ (process_one
      { avifSupported := false, tinifyAvailable := true, tinifyKey := some "k",
        inputDirExists := true, discovered := [⟨"in/pic.png", "pic.png", ""⟩],
        decodeResult := fun p => if p = "in/pic.png"
          then some ⟨.RGB, 1, 1, .srcData 0⟩
          else if p = "out/pic.tmp_compressed.png"
          then some ⟨.RGB, 1, 1, .srcData 1⟩ else none,
        tinifyFails := fun _ => false, encodeFails := fun _ => false }
      { input_dir := "in", out := "out", recursive := false, no_rename := true,
        tinypng := true, quality := 85, keep_structure := false }
      ⟨"in/pic.png", "pic.png", ""⟩ ⟨[], [], [], []⟩).files ∧
    "out/pic.tmp_compressed.png" ∉ (process_one
      { avifSupported := false, tinifyAvailable := true, tinifyKey := some "k",
        inputDirExists := true, discovered := [⟨"in/pic.png", "pic.png", ""⟩],
        decodeResult := fun p => if p = "in/pic.png"
          then some ⟨.RGB, 1, 1, .srcData 0⟩
          else if p = "out/pic.tmp_compressed.png"
          then some ⟨.RGB, 1, 1, .srcData 1⟩ else none,
        tinifyFails := fun _ => false, encodeFails := fun _ => false }
      { input_dir := "in", out := "out", recursive := false, no_rename := true,
        tinypng := true, quality := 85, keep_structure := false }
      ⟨"in/pic.png", "pic.png", ""⟩ ⟨[], [], [], []⟩).files := by
  have h := tinypng_cleanup
    { avifSupported := false, tinifyAvailable := true, tinifyKey := some "k",
      inputDirExists := true, discovered := [⟨"in/pic.png", "pic.png", ""⟩],
      decodeResult := fun p => if p = "in/pic.png"
        then some ⟨.RGB, 1, 1, .srcData 0⟩
        else if p = "out/pic.tmp_compressed.png"
        then some ⟨.RGB, 1, 1, .srcData 1⟩ else none,
      tinifyFails := fun _ => false, encodeFails := fun _ => false }
    { input_dir := "in", out := "out", recursive := false, no_rename := true,
      tinypng := true, quality := 85, keep_structure := false }
    ⟨"in/pic.png", "pic.png", ""⟩ ⟨[], [], [], []⟩
    ⟨.RGB, 1, 1, .srcData 0⟩ ⟨.RGB, 1, 1, .srcData 1⟩
    rfl (by decide) rfl rfl rfl rfl (by decide) rfl rfl rfl (by decide) (by decide)
  exact ⟨h.1, h.2.1⟩

/-- C8 counterexample: the claim says the compressed PNG is deleted once
the in-memory decode completes, regardless of the outcome of later steps.
In this run the decode of the compressed PNG succeeds, then the JPEG
encode raises; the per-file handler catches the exception and the
compressed PNG is left on disk (there is no `finally` cleanup). -/
theorem tinypng_cleanup_claim_false :
    ({ avifSupported := false, tinifyAvailable := true, tinifyKey := some "k",
        inputDirExists := true, discovered := [⟨"in/pic.png", "pic.png", ""⟩],
        decodeResult := fun p => if p = "in/pic.png"
          then some ⟨.RGB, 1, 1, .srcData 0⟩
          else if p = "out/pic.tmp_compressed.png"
          then some ⟨.RGB, 1, 1, .srcData 1⟩ else none,
        tinifyFails := fun _ => false,
        encodeFails := fun p => p = "out/pic.jpg" } : Env).decodeResult
      "out/pic.tmp_compressed.png" = some ⟨.RGB, 1, 1, .srcData 1⟩ ∧
    "out/pic.tmp_compressed.png" ∈ (process_one
      { avifSupported := false, tinifyAvailable := true, tinifyKey := some "k",
        inputDirExists := true, discovered := [⟨"in/pic.png", "pic.png", ""⟩],
        decodeResult := fun p => if p = "in/pic.png"
          then some ⟨.RGB, 1, 1, .srcData 0⟩
          else if p = "out/pic.tmp_compressed.png"
          then some ⟨.RGB, 1, 1, .srcData 1⟩ else none,
        tinifyFails := fun _ => false,
        encodeFails := fun p => p = "out/pic.jpg" }
      { input_dir := "in", out := "out", recursive := false, no_rename := true,
        tinypng := true, quality := 85, keep_structure := false }
      ⟨"in/pic.png", "pic.png", ""⟩ ⟨[], [], [], []⟩).files := by
  constructor
  · decide
  · decide

/-- Whether the emit step will succeed for a given base. -/
def saveOk (env : Env) (tdir stem : String) : Bool :=
  !env.encodeFails (outPath tdir stem ".jpg")
    && !env.encodeFails (outPath tdir stem ".webp")
    && (!env.avifSupported || !env.encodeFails (outPath tdir stem ".avif"))

/-- Whether `process_one` will succeed for a given file: all oracle
outcomes along its pipeline are favorable.  The conditions depend only
on the environment, not on the current world. -/
def fileOk (env : Env) (a : Args) (f : DiscFile) : Bool :=
  match env.decodeResult f.path with
  | none => false
  | some _ =>
    if a.tinypng then
      !env.encodeFails (outPath (targetDir a f) (resolvedStem a f) ".tmp.png")
        && env.tinifyAvailable && !pyFalsy env.tinifyKey
        && !env.tinifyFails (outPath (targetDir a f) (resolvedStem a f) ".tmp.png")
        && (env.decodeResult
            (outPath (targetDir a f) (resolvedStem a f) ".tmp_compressed.png")).isSome
        && saveOk env (targetDir a f) (resolvedStem a f)
    else saveOk env (targetDir a f) (resolvedStem a f)

lemma save_formats_classify (env : Env) (img : PImg) (tdir stem : String)
    (q : ℕ) (w : World) :
    (∃ w2 written, save_formats_from_image env img tdir stem q w = .ok w2 written ∧
      w2.out = w.out ∧ w2.err = w.err ∧ saveOk env tdir stem = true) ∨
    (∃ w2 msg, save_formats_from_image env img tdir stem q w = .exn w2 msg ∧
      w2.out = w.out ∧ w2.err = w.err ∧ saveOk env tdir stem = false) := by
  by_cases h1 : env.encodeFails (outPath tdir stem ".jpg") = true
  · have heq : save_formats_from_image env img tdir stem q w
        = .exn w ("encode failed " ++ outPath tdir stem ".jpg") := by
      unfold save_formats_from_image
      rw [if_pos h1]
    exact Or.inr ⟨_, _, heq, rfl, rfl, by simp [saveOk, h1]⟩
  · by_cases h2 : env.encodeFails (outPath tdir stem ".webp") = true
    · have heq : save_formats_from_image env img tdir stem q w
          = .exn (writeFile w (outPath tdir stem ".jpg"))
              ("encode failed " ++ outPath tdir stem ".webp") := by
        unfold save_formats_from_image
        rw [if_neg h1, if_pos h2]
      exact Or.inr ⟨_, _, heq, rfl, rfl, by simp [saveOk, h2]⟩
    · by_cases h3 : env.avifSupported = true
      · by_cases h4 : env.encodeFails (outPath tdir stem ".avif") = true
        · have heq : save_formats_from_image env img tdir stem q w
              = .exn (writeFile (writeFile w (outPath tdir stem ".jpg"))
                  (outPath tdir stem ".webp"))
                  ("encode failed " ++ outPath tdir stem ".avif") := by
            unfold save_formats_from_image
            rw [if_neg h1, if_neg h2, if_pos h3, if_pos h4]
          exact Or.inr ⟨_, _, heq, rfl, rfl, by simp [saveOk, h3, h4]⟩
        · have heq : save_formats_from_image env img tdir stem q w
              = .ok (writeFile (writeFile (writeFile w (outPath tdir stem ".jpg"))
                    (outPath tdir stem ".webp")) (outPath tdir stem ".avif"))
                  [("jpg", outPath tdir stem ".jpg"),
                    ("webp", outPath tdir stem ".webp"),
                    ("avif", outPath tdir stem ".avif")] := by
            unfold save_formats_from_image
            rw [if_neg h1, if_neg h2, if_pos h3, if_neg h4]
          refine Or.inl ⟨_, _, heq, rfl, rfl, ?_⟩
          rw [Bool.not_eq_true] at h1 h2 h4
          simp [saveOk, h1, h2, h4]
      · have heq : save_formats_from_image env img tdir stem q w
            = .ok (writeFile (writeFile w (outPath tdir stem ".jpg"))
                  (outPath tdir stem ".webp"))
                [("jpg", outPath tdir stem ".jpg"),
                  ("webp", outPath tdir stem ".webp")] := by
          unfold save_formats_from_image
          rw [if_neg h1, if_neg h2, if_neg h3]
        refine Or.inl ⟨_, _, heq, rfl, rfl, ?_⟩
        rw [Bool.not_eq_true] at h1 h2 h3
        simp [saveOk, h1, h2, h3]

lemma pipelineOne_classify (env : Env) (a : Args) (f : DiscFile) (w : World) :
    (∃ w2 r, pipelineOne env a f w = .ok w2 r ∧ w2.out = w.out ∧ w2.err = w.err ∧
      fileOk env a f = true) ∨
    (∃ w2 msg, pipelineOne env a f w = .exn w2 msg ∧ w2.out = w.out ∧ w2.err = w.err ∧
      fileOk env a f = false) := by
  cases hdec : env.decodeResult f.path with
  | none =>
    right
    refine ⟨w, "cannot identify image file", ?_, rfl, rfl, ?_⟩
    · unfold pipelineOne
      rw [hdec]
    · unfold fileOk
      rw [hdec]
  | some im =>
    by_cases htp : a.tinypng = true
    · by_cases hctmp : env.encodeFails
          (outPath (targetDir a f) (resolvedStem a f) ".tmp.png") = true
      · have heq : pipelineOne env a f w = .exn (ensure_dir w (targetDir a f))
            ("encode failed " ++ outPath (targetDir a f) (resolvedStem a f) ".tmp.png") := by
          unfold pipelineOne
          rw [hdec]
          simp [htp, hctmp]
        have hfk : fileOk env a f = false := by
          unfold fileOk
          rw [hdec]
          simp [htp, hctmp]
        exact Or.inr ⟨_, _, heq, rfl, rfl, hfk⟩
      · by_cases hta : env.tinifyAvailable = true
        · by_cases hkey : pyFalsy env.tinifyKey = true
          · have heq : pipelineOne env a f w = .exn
                (writeFile (ensure_dir w (targetDir a f))
                  (outPath (targetDir a f) (resolvedStem a f) ".tmp.png"))
                "TINIFY_KEY missing" := by
              unfold pipelineOne
              rw [hdec]
              simp [htp, hctmp, hta, hkey]
            have hfk : fileOk env a f = false := by
              unfold fileOk
              rw [hdec]
              simp [htp, hkey]
            exact Or.inr ⟨_, _, heq, rfl, rfl, hfk⟩
          · by_cases htf : env.tinifyFails
                (outPath (targetDir a f) (resolvedStem a f) ".tmp.png") = true
            · have heq : pipelineOne env a f w = .exn
                  (writeFile (ensure_dir w (targetDir a f))
                    (outPath (targetDir a f) (resolvedStem a f) ".tmp.png"))
                  "tinify compression error" := by
                unfold pipelineOne
                rw [hdec]
                simp [htp, hctmp, hta, hkey, htf]
              have hfk : fileOk env a f = false := by
                unfold fileOk
                rw [hdec]
                simp [htp, htf]
              exact Or.inr ⟨_, _, heq, rfl, rfl, hfk⟩
            · cases hdec2 : env.decodeResult
                  (outPath (targetDir a f) (resolvedStem a f) ".tmp_compressed.png") with
              | none =>
                have heq : pipelineOne env a f w = .exn
                    (unlinkMT (writeFile (writeFile (ensure_dir w (targetDir a f))
                        (outPath (targetDir a f) (resolvedStem a f) ".tmp.png"))
                      (outPath (targetDir a f) (resolvedStem a f) ".tmp_compressed.png"))
                      (outPath (targetDir a f) (resolvedStem a f) ".tmp.png"))
                    "cannot identify compressed image" := by
                  unfold pipelineOne
                  rw [hdec]
                  simp [htp, hctmp, hta, hkey, htf, hdec2]
                have hfk : fileOk env a f = false := by
                  unfold fileOk
                  rw [hdec]
                  simp [htp, hdec2]
                exact Or.inr ⟨_, _, heq, rfl, rfl, hfk⟩
              | some cim =>
                rcases save_formats_classify env (convertMode .RGB cim) (targetDir a f)
                    (resolvedStem a f) a.quality
                    (unlinkMT (writeFile (writeFile (ensure_dir w (targetDir a f))
                        (outPath (targetDir a f) (resolvedStem a f) ".tmp.png"))
                      (outPath (targetDir a f) (resolvedStem a f) ".tmp_compressed.png"))
                      (outPath (targetDir a f) (resolvedStem a f) ".tmp.png"))
                  with ⟨w5, written, hs, ho, he, hsk⟩ | ⟨w5, msg, hs, ho, he, hsk⟩
                · have heq : pipelineOne env a f w = .ok
                      (unlinkMT w5 (outPath (targetDir a f) (resolvedStem a f)
                        ".tmp_compressed.png"))
                      (resolvedStem a f,
                        (if is_landscape im then "landscape" else "portrait"), written) := by
                    unfold pipelineOne
                    rw [hdec]
                    simp [htp, hctmp, hta, hkey, htf, hdec2, hs]
                  have hfk : fileOk env a f = true := by
                    unfold fileOk
                    rw [hdec]
                    rw [Bool.not_eq_true] at hctmp htf
                    simp [htp, hctmp, hta, hkey, htf, hdec2, hsk]
                  exact Or.inl ⟨_, _, heq, ho, he, hfk⟩
                · have heq : pipelineOne env a f w = .exn w5 msg := by
                    unfold pipelineOne
                    rw [hdec]
                    simp [htp, hctmp, hta, hkey, htf, hdec2, hs]
                  have hfk : fileOk env a f = false := by
                    unfold fileOk
                    rw [hdec]
                    simp [htp, hsk]
                  exact Or.inr ⟨_, _, heq, ho, he, hfk⟩
        · have heq : pipelineOne env a f w = .exn
              (writeFile (ensure_dir w (targetDir a f))
                (outPath (targetDir a f) (resolvedStem a f) ".tmp.png"))
              "module tinify not installed" := by
            unfold pipelineOne
            rw [hdec]
            rw [Bool.not_eq_true] at hta
            simp [htp, hctmp, hta]
          have hfk : fileOk env a f = false := by
            unfold fileOk
            rw [hdec]
            rw [Bool.not_eq_true] at hta
            simp [htp, hta]
          exact Or.inr ⟨_, _, heq, rfl, rfl, hfk⟩
    · rcases save_formats_classify env (resizePreserveAspect im TARGET_SIZE)
          (targetDir a f) (resolvedStem a f) a.quality (ensure_dir w (targetDir a f))
        with ⟨w5, written, hs, ho, he, hsk⟩ | ⟨w5, msg, hs, ho, he, hsk⟩
      · have heq : pipelineOne env a f w = .ok w5
            (resolvedStem a f,
              (if is_landscape im then "landscape" else "portrait"), written) := by
          unfold pipelineOne
          rw [hdec]
          simp [htp, hs]
        have hfk : fileOk env a f = true := by
          unfold fileOk
          rw [hdec]
          simp [htp, hsk]
        exact Or.inl ⟨_, _, heq, ho, he, hfk⟩
      · have heq : pipelineOne env a f w = .exn w5 msg := by
          unfold pipelineOne
          rw [hdec]
          simp [htp, hs]
        have hfk : fileOk env a f = false := by
          unfold fileOk
          rw [hdec]
          simp [htp, hsk]
        exact Or.inr ⟨_, _, heq, ho, he, hfk⟩

lemma processOne_shape (env : Env) (a : Args) (f : DiscFile) (w : World) :
    (fileOk env a f = true →
      (process_one env a f w).err = w.err ∧
      ∃ line, (process_one env a f w).out = w.out ++ [line]) ∧
    (fileOk env a f = false →
      (process_one env a f w).out = w.out ∧
      ∃ msg, (process_one env a f w).err = w.err ++ [errLine f.path msg]) := by
  rcases pipelineOne_classify env a f w with
    ⟨w2, r, heq, ho, he, hfk⟩ | ⟨w2, msg, heq, ho, he, hfk⟩
  · constructor
    · intro _
      unfold process_one
      rw [heq]
      refine ⟨he, okLine f.name r.1 r.2.1 r.2.2, ?_⟩
      show w2.out ++ [okLine f.name r.1 r.2.1 r.2.2]
        = w.out ++ [okLine f.name r.1 r.2.1 r.2.2]
      rw [ho]
    · intro hff
      rw [hfk] at hff
      cases hff
  · constructor
    · intro htt
      rw [hfk] at htt
      cases htt
    · intro _
      unfold process_one
      rw [heq]
      refine ⟨ho, msg, ?_⟩
      show w2.err ++ [errLine f.path msg] = w.err ++ [errLine f.path msg]
      rw [he]

lemma batch_shape (env : Env) (a : Args) : ∀ (L : List DiscFile) (w : World),
    (L.foldl (fun wacc f => process_one env a f wacc) w).out.length
      = w.out.length + L.countP (fun f => fileOk env a f) ∧
    (L.foldl (fun wacc f => process_one env a f wacc) w).err.length
      = w.err.length + L.countP (fun f => !fileOk env a f) ∧
    ∃ extra, (L.foldl (fun wacc f => process_one env a f wacc) w).err = w.err ++ extra ∧
      ∀ m ∈ extra, ∃ f ∈ L, ∃ msg, m = errLine f.path msg := by
  intro L
  induction L with
  | nil =>
    intro w
    exact ⟨by simp, by simp, [], by simp, by simp⟩
  | cons f L ih =>
    intro w
    rw [List.foldl_cons]
    obtain ⟨h1, h2, extra, hex, hextag⟩ := ih (process_one env a f w)
    obtain ⟨hokCase, hexnCase⟩ := processOne_shape env a f w
    by_cases hfk : fileOk env a f = true
    · obtain ⟨herr, line, hout⟩ := hokCase hfk
      refine ⟨?_, ?_, extra, ?_, ?_⟩
      · rw [h1, hout, List.length_append,
          List.countP_cons_of_pos _ _ (by simp [hfk])]
        simp
        omega
      · rw [h2, herr, List.countP_cons_of_neg _ _ (by simp [hfk])]
      · rw [hex, herr]
      · intro m hm
        obtain ⟨g, hg, msg, hmsg⟩ := hextag m hm
        exact ⟨g, List.mem_cons_of_mem f hg, msg, hmsg⟩
    · rw [Bool.not_eq_true] at hfk
      obtain ⟨hout, msg, herr⟩ := hexnCase hfk
      refine ⟨?_, ?_, errLine f.path msg :: extra, ?_, ?_⟩
      · rw [h1, hout, List.countP_cons_of_neg _ _ (by simp [hfk])]
      · rw [h2, herr, List.length_append,
          List.countP_cons_of_pos _ _ (by simp [hfk])]
        simp
        omega
      · rw [hex, herr, List.append_assoc]
        rfl
      · intro m hm
        rcases List.mem_cons.mp hm with rfl | hm
        · exact ⟨f, List.mem_cons_self f L, msg, rfl⟩
        · obtain ⟨g, hg, msg2, hmsg2⟩ := hextag m hm
          exact ⟨g, List.mem_cons_of_mem f hg, msg2, hmsg2⟩

/-- C6 (confirmed): once the pre-batch checks pass, the batch runs to
completion with exit code 0 whatever the per-file outcomes are: each
discovered file contributes exactly one stdout success line when its
pipeline succeeds and exactly one stderr line tagged with its source
path when any step of its pipeline raises; failing files never abort the
batch and never change the exit code. -/
theorem per_file_errors_isolated (env : Env) (a : Args) (w : World)
    (h1 : (a.tinypng && !env.tinifyAvailable) = false)
    (h2 : (a.tinypng && pyFalsy env.tinifyKey) = false)
    (h3 : env.inputDirExists = true)
    (h4 : env.discovered ≠ [])
    (h5 : env.avifSupported = true) :
    (mainEntry env a w).2 = 0 ∧
    (mainEntry env a w).1.out.length
      = w.out.length + env.discovered.countP (fun f => fileOk env a f) ∧
    (mainEntry env a w).1.err.length
      = w.err.length + env.discovered.countP (fun f => !fileOk env a f) ∧
    ∃ extra, (mainEntry env a w).1.err = w.err ++ extra ∧
      ∀ m ∈ extra, ∃ f ∈ env.discovered, ∃ msg, m = errLine f.path msg := by
  have hemp : env.discovered.isEmpty = false := by
    cases hd : env.discovered with
    | nil => exact absurd hd h4
    | cons x xs => rfl
  have hmain : mainEntry env a w = (env.discovered.foldl
      (fun wacc f => process_one env a f wacc) (ensure_dir w a.out), 0) := by
    unfold mainEntry
    rw [h1, h2, h3, h5, hemp]
    simp
  rw [hmain]
  obtain ⟨c1, c2, extra, hex, htag⟩ :=
    batch_shape env a env.discovered (ensure_dir w a.out)
  exact ⟨rfl, c1, c2, extra, hex, htag⟩

/-- Witness for C6: a batch of two decodable images and one corrupt file
yields exit code 0, two stdout success lines and exactly one stderr
error line. -/
theorem per_file_errors_isolated_witness :
    (mainEntry
        { avifSupported := true, tinifyAvailable := false, tinifyKey := none,
          inputDirExists := true,
          discovered := [⟨"in/a.png", "a.png", ""⟩, ⟨"in/b.png", "b.png", ""⟩,
            ⟨"in/c.png", "c.png", ""⟩],
          decodeResult := fun p => if p = "in/a.png"
            then some ⟨.RGB, 1, 1, .srcData 0⟩
            else if p = "in/c.png" then some ⟨.RGB, 1, 2, .srcData 2⟩ else none,
          tinifyFails := fun _ => false, encodeFails := fun _ => false }
        { input_dir := "in", out := "out", recursive := false, no_rename := true,
          tinypng := false, quality := 85, keep_structure := false }
        ⟨[], [], [], []⟩).2 = 0 ∧
    (mainEntry
        { avifSupported := true, tinifyAvailable := false, tinifyKey := none,
          inputDirExists := true,
          discovered := [⟨"in/a.png", "a.png", ""⟩, ⟨"in/b.png", "b.png", ""⟩,
            ⟨"in/c.png", "c.png", ""⟩],
          decodeResult := fun p => if p = "in/a.png"
            then some ⟨.RGB, 1, 1, .srcData 0⟩
            else if p = "in/c.png" then some ⟨.RGB, 1, 2, .srcData 2⟩ else none,
          tinifyFails := fun _ => false, encodeFails := fun _ => false }
        { input_dir := "in", out := "out", recursive := false, no_rename := true,
          tinypng := false, quality := 85, keep_structure := false }
        ⟨[], [], [], []⟩).1.out.length = 2 ∧
    (mainEntry
        { avifSupported := true, tinifyAvailable := false, tinifyKey := none,
          inputDirExists := true,
          discovered := [⟨"in/a.png", "a.png", ""⟩, ⟨"in/b.png", "b.png", ""⟩,
            ⟨"in/c.png", "c.png", ""⟩],
          decodeResult := fun p => if p = "in/a.png"
            then some ⟨.RGB, 1, 1, .srcData 0⟩
            else if p = "in/c.png" then some ⟨.RGB, 1, 2, .srcData 2⟩ else none,
          tinifyFails := fun _ => false, encodeFails := fun _ => false }
        { input_dir := "in", out := "out", recursive := false, no_rename := true,
          tinypng := false, quality := 85, keep_structure := false }
        ⟨[], [], [], []⟩).1.err.length = 1 := by
  have h := per_file_errors_isolated
    { avifSupported := true, tinifyAvailable := false, tinifyKey := none,
      inputDirExists := true,
      discovered := [⟨"in/a.png", "a.png", ""⟩, ⟨"in/b.png", "b.png", ""⟩,
        ⟨"in/c.png", "c.png", ""⟩],
      decodeResult := fun p => if p = "in/a.png"
        then some ⟨.RGB, 1, 1, .srcData 0⟩
        else if p = "in/c.png" then some ⟨.RGB, 1, 2, .srcData 2⟩ else none,
      tinifyFails := fun _ => false, encodeFails := fun _ => false }
    { input_dir := "in", out := "out", recursive := false, no_rename := true,
      tinypng := false, quality := 85, keep_structure := false }
    ⟨[], [], [], []⟩ rfl rfl rfl (by decide) rfl
  refine ⟨h.1, ?_, ?_⟩
  · rw [h.2.1]
    decide
  · rw [h.2.2.1]
    decide
